import Mathlib

/-!
Chart tracker dispatcher

A shallow embedding of `cmd/chart-tracker/dispatcher.go`: the sync-job
generator (`Dispatcher.generateSyncJobs`) and the admission loop
(`Dispatcher.Run`), followed by theorems about them. The handler
`CheckAvailability` of `cmd/hub/handlers/org/handlers.go` has its own
namespace, `OrgHandlers`.

Modelling conventions

* Go strings are Lean `String`s; the separator of a key is the character `@`.
* A Go `map` is an association list given in the order in which the `range`
  loop of the run visits it. Distinctness of the keys of a map is stated as a
  hypothesis where a theorem needs it.
* The collaborators (`il.LoadIndex`, `rm.GetPackagesDigest`, `ctx.Done`,
  `limiter.Wait`) are functions handed to the model; the sends on `Queue`, the
  calls of `ec.Append` and the calls of `GetPackagesDigest` are recorded in the
  result.
* `ctxDone n` is the outcome of the `n`-th non-blocking check of `ctx.Done()`
  made by one generator (counted from zero).
-/

namespace ChartTracker

/-- JobKind is the kind of a job: register or unregister. -/
inductive JobKind where
  | Register
  | Unregister
deriving DecidableEq, Repr

/-- The fields of `hub.ChartRepository` the dispatcher reads. -/
structure ChartRepository where
  ChartRepositoryID : String
  Name : String
deriving DecidableEq, Repr

/-- The fields of `repo.ChartVersion` the dispatcher reads or writes:
`Metadata.Name`, `Metadata.Version` and `Digest`. -/
structure ChartVersion where
  Name : String
  Version : String
  Digest : String
deriving DecidableEq, Repr

/-- Job is a unit of work sent on the dispatcher's queue. -/
structure Job where
  Kind : JobKind
  Repo : ChartRepository
  ChartVersion : ChartVersion
  GetLogo : Bool
deriving DecidableEq, Repr

/-- Go error values: a plain error, or the value built by `fmt.Errorf` with a
`%w` verb, which keeps the wrapped error. -/
inductive GoError where
  | errorString (s : String)
  | wrapError (msg : String) (err : GoError)
deriving DecidableEq, Repr

/-- The method `Error()` of an error value. -/
def GoError.Error : GoError → String
  | .errorString s => s
  | .wrapError msg _ => msg

/-- The method `Unwrap()` of an error value. -/
def GoError.Unwrap : GoError → Option GoError
  | .errorString _ => none
  | .wrapError _ err => some err

/-- The value of `fmt.Errorf("%s: %w", msg, err)`. -/
def errorfWrap (msg : String) (err : GoError) : GoError :=
  .wrapError (msg ++ ": " ++ err.Error) err

/-- The index file of a repository: `Entries` maps a package name to its
version entries; the list is in the order of the `range` loop. -/
structure IndexFile where
  Entries : List (String × List ChartVersion)
deriving DecidableEq, Repr

/-- The registered packages digest, `map[string]string`, in the order of the
`range` loop. -/
abbrev DigestMap := List (String × String)

/-- Reading `m[key]` from a Go map of strings: the zero value `""` when the key
is absent. -/
def DigestMap.get (m : DigestMap) (key : String) : String :=
  match m.lookup key with
  | some d => d
  | none => ""

/-- The keys of a registered digest map. -/
def DigestMap.keys (m : DigestMap) : List String := m.map Prod.fst

/-- All version entries of an index, package after package. -/
def IndexFile.versions (f : IndexFile) : List ChartVersion :=
  f.Entries.flatMap Prod.snd

/-- The key built by `fmt.Sprintf("%s@%s", name, version)`. -/
def chartKey (cv : ChartVersion) : String := cv.Name ++ "@" ++ cv.Version

/-- The keys of the version entries of an index. -/
def IndexFile.keys (f : IndexFile) : List String := f.versions.map chartKey

/-- Splitting a list of characters at every occurrence of `sep`; the result
has one more part than there are separators. -/
def splitChars (sep : Char) : List Char → List (List Char)
  | [] => [[]]
  | c :: cs =>
    if c = sep then [] :: splitChars sep cs
    else
      match splitChars sep cs with
      | [] => [[c]]
      | p :: ps => (c :: p) :: ps

/-- The function `strings.Split(s, "@")`. -/
def stringsSplit (s : String) : List String :=
  (splitChars '@' s.data).map String.mk

/-- How the body of `generateSyncJobs` ended. -/
inductive Exit where
  | loadFailed
  | lookupFailed
  | cancelled
  | panicked
  | completed
deriving DecidableEq, Repr

/-- What one of the two loops of the generator did: the jobs sent on the queue,
the keys added to `chartsAvailable`, the number of `ctx.Done()` checks made so
far by the generator, and how the loop was left (`none`: it ran to its end). -/
structure PassOut where
  jobs : List Job
  keys : List String
  checks : Nat
  left : Option Exit
deriving DecidableEq, Repr

/-- The inner loop of the registration pass, `for i, chartVersion := range
chartVersions`, from position `i` on; `n` checks of `ctx.Done()` were made
before. -/
def registerVersions (ctxDone : Nat → Bool) (D : DigestMap) (r : ChartRepository) :
    List ChartVersion → Nat → Nat → PassOut
  | [], _, n => ⟨[], [], n, none⟩
  | chartVersion :: rest, i, n =>
    let getLogo : Bool := decide (i = 0)
    let key := chartKey chartVersion
    let sent : List Job :=
      if chartVersion.Digest ≠ D.get key then
        [{ Kind := .Register, Repo := r, ChartVersion := chartVersion, GetLogo := getLogo }]
      else []
    if ctxDone n then ⟨sent, [key], n + 1, some .cancelled⟩
    else
      let o := registerVersions ctxDone D r rest (i + 1) (n + 1)
      ⟨sent ++ o.jobs, key :: o.keys, o.checks, o.left⟩

/-- The outer loop of the registration pass, `for _, chartVersions := range
indexFile.Entries`. -/
def registerEntries (ctxDone : Nat → Bool) (D : DigestMap) (r : ChartRepository) :
    List (String × List ChartVersion) → Nat → PassOut
  | [], n => ⟨[], [], n, none⟩
  | (_, chartVersions) :: rest, n =>
    let o := registerVersions ctxDone D r chartVersions 0 n
    match o.left with
    | some e => ⟨o.jobs, o.keys, o.checks, some e⟩
    | none =>
      let o2 := registerEntries ctxDone D r rest o.checks
      ⟨o.jobs ++ o2.jobs, o.keys ++ o2.keys, o2.checks, o2.left⟩

/-- The job sent for a registered key that is not available any more; `none`
when `p[1]` is out of range. -/
def unregisterJob (r : ChartRepository) (key : String) : Option Job :=
  match stringsSplit key with
  | name :: version :: _ =>
    some { Kind := .Unregister, Repo := r,
           ChartVersion := { Name := name, Version := version, Digest := "" },
           GetLogo := false }
  | _ => none

/-- The unregistration pass, `for key := range registeredPackagesDigest`. -/
def unregisterKeys (ctxDone : Nat → Bool) (chartsAvailable : List String)
    (r : ChartRepository) : DigestMap → Nat → PassOut
  | [], n => ⟨[], [], n, none⟩
  | (key, _) :: rest, n =>
    let sent : Option (List Job) :=
      if key ∈ chartsAvailable then some []
      else (unregisterJob r key).map fun job => [job]
    match sent with
    | none => ⟨[], [], n, some .panicked⟩
    | some jobs =>
      if ctxDone n then ⟨jobs, [], n + 1, some .cancelled⟩
      else
        let o := unregisterKeys ctxDone chartsAvailable r rest (n + 1)
        ⟨jobs ++ o.jobs, o.keys, o.checks, o.left⟩

/-- What one call of `generateSyncJobs` did: the jobs sent on `Queue` in
order, the calls of `ec.Append`, the repository ids `GetPackagesDigest` was
called with, the number of `ctx.Done()` checks made, and how the body ended. -/
structure GenResult where
  jobs : List Job
  errors : List (String × GoError)
  lookups : List String
  checks : Nat
  exit : Exit
deriving DecidableEq, Repr

/-- The method `Dispatcher.generateSyncJobs` for repository `r`. -/
def generateSyncJobs (il : ChartRepository → Except GoError IndexFile)
    (rm : String → Except GoError DigestMap) (ctxDone : Nat → Bool)
    (r : ChartRepository) : GenResult :=
  match il r with
  | .error err =>
    let msg := "error loading repository index file"
    { jobs := [], errors := [(r.ChartRepositoryID, errorfWrap msg err)],
      lookups := [], checks := 0, exit := .loadFailed }
  | .ok indexFile =>
    match rm r.ChartRepositoryID with
    | .error _ =>
      { jobs := [], errors := [], lookups := [r.ChartRepositoryID], checks := 0,
        exit := .lookupFailed }
    | .ok registeredPackagesDigest =>
      let reg := registerEntries ctxDone registeredPackagesDigest r indexFile.Entries 0
      match reg.left with
      | some e =>
        { jobs := reg.jobs, errors := [], lookups := [r.ChartRepositoryID],
          checks := reg.checks, exit := e }
      | none =>
        let un := unregisterKeys ctxDone reg.keys r registeredPackagesDigest reg.checks
        { jobs := reg.jobs ++ un.jobs, errors := [], lookups := [r.ChartRepositoryID],
          checks := un.checks,
          exit := match un.left with
            | some e => e
            | none => .completed }

/-- The context that is never done. -/
def neverDone : Nat → Bool := fun _ => false

/-- What the goroutine of `Dispatcher.Run` does, in order. -/
inductive RunEvent where
  | launch (r : ChartRepository)
  | limiterError (err : GoError)
  | wgReposWait
  | closeQueue
  | wgDone
deriving DecidableEq, Repr

/-- The admission loop of `Run`, `for _, r := range repos`, from position `i`
on: the events of the loop and whether it was left through `return`.
`limiter i` is the result of the `i`-th call of `limiter.Wait(d.ctx)`. -/
def admitRepos (limiter : Nat → Option GoError) : List ChartRepository → Nat → List RunEvent × Bool
  | [], _ => ([], false)
  | r :: rest, i =>
    match limiter i with
    | some err => ([.limiterError err], true)
    | none =>
      let o := admitRepos limiter rest (i + 1)
      (.launch r :: o.1, o.2)

/-- The method `Dispatcher.Run`: the admission loop, the wait on `wgRepos`
when the loop was not left through `return`, and then the deferred calls in
reverse order of their `defer` statements: `close(d.Queue)`, `wg.Done()`. -/
def Run (limiter : Nat → Option GoError) (repos : List ChartRepository) : List RunEvent :=
  let o := admitRepos limiter repos 0
  o.1 ++ (if o.2 then [] else [.wgReposWait]) ++ [.closeQueue, .wgDone]

/-- The loader that returns the same index for every repository. -/
def loadOk (f : IndexFile) : ChartRepository → Except GoError IndexFile := fun _ => .ok f

/-- The digest lookup that returns the same map for every repository. -/
def digestOk (D : DigestMap) : String → Except GoError DigestMap := fun _ => .ok D

/-- The repository of the examples. -/
def repoR : ChartRepository := { ChartRepositoryID := "r1", Name := "stable" }

/-- The index of the scenario with packages A and B, one version each. -/
def indexAB : IndexFile :=
  { Entries := [("A", [⟨"A", "1.0", "x"⟩]), ("B", [⟨"B", "2.0", "y"⟩])] }

/-- The same index with the packages visited in the other order. -/
def indexBA : IndexFile :=
  { Entries := [("B", [⟨"B", "2.0", "y"⟩]), ("A", [⟨"A", "1.0", "x"⟩])] }

/-- The registered digests of the scenario. -/
def digestAC : DigestMap := [("A@1.0", "x"), ("C@1.0", "z")]

/-- The same registered digests visited in the other order. -/
def digestCA : DigestMap := [("C@1.0", "z"), ("A@1.0", "x")]

/-- The jobs the registration pass sends for one version entry: a Register
job when the digest differs from the registered one. -/
def registerJob (D : DigestMap) (r : ChartRepository) (getLogo : Bool)
    (cv : ChartVersion) : List Job :=
  if cv.Digest ≠ D.get (chartKey cv) then
    [{ Kind := .Register, Repo := r, ChartVersion := cv, GetLogo := getLogo }]
  else []

/-- The version entries of one package, each with the value `getLogo` has when
the inner loop visits it: true at position 0 only. -/
def tagVersions : List ChartVersion → List (Bool × ChartVersion)
  | [] => []
  | cv :: rest => (true, cv) :: rest.map fun c => (false, c)

/-- All version entries of an index in the order of the registration pass,
each with its value of `getLogo`. -/
def taggedVersions (entries : List (String × List ChartVersion)) : List (Bool × ChartVersion) :=
  entries.flatMap fun g => tagVersions g.2

/-- The job sequence of a whole registration pass. -/
def registerJobs (D : DigestMap) (r : ChartRepository)
    (entries : List (String × List ChartVersion)) : List Job :=
  (taggedVersions entries).flatMap fun t => registerJob D r t.1 t.2

/-- The keys of the version entries of a list of packages. -/
def entryKeys (entries : List (String × List ChartVersion)) : List String :=
  (entries.flatMap Prod.snd).map chartKey

/-- Whether a key contains the separator exactly once. -/
def oneSeparator (key : String) : Prop := key.data.count '@' = 1

instance (key : String) : Decidable (oneSeparator key) := by
  unfold oneSeparator; infer_instance

/-- Whether a job is a Register job of package `name` that asks for the logo. -/
def isLogoJob (name : String) (j : Job) : Bool :=
  decide (j.Kind = .Register ∧ j.ChartVersion.Name = name ∧ j.GetLogo = true)

/-- An index with one package, whose first version is registered and whose
second version is not. -/
def indexTwoVersions : IndexFile :=
  { Entries := [("A", [⟨"A", "2.0", "x"⟩, ⟨"A", "1.0", "y"⟩])] }

/-- The registered digests after a completed run over the index with packages
A and B. -/
def digestAB : DigestMap := [("B@2.0", "y"), ("A@1.0", "x")]

/-- A second repository. -/
def repoS : ChartRepository := { ChartRepositoryID := "r2", Name := "incubator" }

/-- A limiter whose second wait fails, the context having been cancelled. -/
def limiterSecondFails : Nat → Option GoError :=
  fun i => if i = 1 then some (.errorString "context canceled") else none

/-- An index with one package and three new versions. -/
def indexThree : IndexFile :=
  { Entries := [("A", [⟨"A", "3.0", "u"⟩, ⟨"A", "2.0", "v"⟩, ⟨"A", "1.0", "w"⟩])] }

/-- The context that is found done from the second check on. -/
def doneFromSecond : Nat → Bool := fun n => decide (1 ≤ n)

/-- A loader that fails for every repository. -/
def loadFails : ChartRepository → Except GoError IndexFile :=
  fun _ => .error (.errorString "not found")

/-- The relation between the outcome `o` of a loop under a context whose first
done check is check `f` and the outcome `u` of the same loop under the context
that is never done: either nothing differs, or the loop was left at check `f`
with a part of the jobs sent. -/
def CutAt (f : Nat) (o u : PassOut) : Prop :=
  (o = u ∧ o.checks ≤ f ∧ o.left ≠ some .cancelled) ∨
    (o.left = some .cancelled ∧ o.checks = f + 1 ∧ o.jobs <+: u.jobs)

/-- The repositories for which the goroutine of `Run` executed
`go d.generateSyncJobs(&wgRepos, r)`, in the order of the launches. -/
def launched : List RunEvent → List ChartRepository
  | [] => []
  | .launch r :: rest => r :: launched rest
  | .limiterError _ :: rest => launched rest
  | .wgReposWait :: rest => launched rest
  | .closeQueue :: rest => launched rest
  | .wgDone :: rest => launched rest

/-- The generators launched for a list of repositories, in launch order.
`ctxDone k` is what the checks of `ctx.Done()` of generator number `k` find. -/
def launchAll (il : ChartRepository → Except GoError IndexFile)
    (rm : String → Except GoError DigestMap) (ctxDone : Nat → Nat → Bool) :
    List ChartRepository → Nat → List GenResult
  | [], _ => []
  | r :: rest, k => generateSyncJobs il rm (ctxDone k) r :: launchAll il rm ctxDone rest (k + 1)

/-- A run of the dispatcher: what the goroutine of `Run` did and what each of
the generators it launched did. The generators run concurrently, so the order
in which jobs of different generators reach `Queue` is not part of the
model. -/
structure RunResult where
  events : List RunEvent
  generators : List GenResult
deriving DecidableEq, Repr

/-- The method `Dispatcher.Run` together with the generators it launches. -/
def runDispatcher (il : ChartRepository → Except GoError IndexFile)
    (rm : String → Except GoError DigestMap) (ctxDone : Nat → Nat → Bool)
    (limiter : Nat → Option GoError) (repos : List ChartRepository) : RunResult :=
  { events := Run limiter repos,
    generators := launchAll il rm ctxDone (launched (Run limiter repos)) 0 }

/-- Whether a generator of the run panicked. Nothing recovers the panic, so it
ends the process and with it the other generators, at a point that depends on
scheduling. -/
def RunResult.crashed (res : RunResult) : Bool :=
  res.generators.any fun g => decide (g.exit = .panicked)

/-- The jobs the generators of a run send on `Queue`, generator after
generator. -/
def RunResult.queueJobs (res : RunResult) : List Job :=
  res.generators.flatMap fun g => g.jobs

/-- The jobs delivered on `Queue` by a run, up to their order between
generators; `none` when a panic ended the process, since what the generators
sent before is then not determined. -/
def RunResult.delivered (res : RunResult) : Option (List Job) :=
  if res.crashed then none else some res.queueJobs

/-- A digest lookup that fails for every repository. -/
def digestFails : String → Except GoError DigestMap :=
  fun _ => .error (.errorString "connection refused")

/-- A limiter that never fails. -/
def limiterOk : Nat → Option GoError := fun _ => none

/-- The jobs of a list with `Repo = r`. -/
def jobsOf (r : ChartRepository) (jobs : List Job) : List Job :=
  jobs.filter fun j => decide (j.Repo = r)

/-- A loader that fails for the repository `repoS` and returns the index with
packages A and B for every other repository. -/
def loadUnlessS : ChartRepository → Except GoError IndexFile :=
  fun r => if r = repoS then .error (.errorString "not found") else .ok indexAB

/-- A loader that returns an empty index for `repoS` and the index with
packages A and B for every other repository. -/
def loadEmptyForS : ChartRepository → Except GoError IndexFile :=
  fun r => if r = repoS then .ok ⟨[]⟩ else .ok indexAB

/-- A digest lookup that returns, for the repository `r2`, one registered key
without separator and, for every other repository, the digests of the
scenario. -/
def digestBadForS : String → Except GoError DigestMap :=
  fun id => if id = "r2" then .ok [("broken", "d")] else .ok digestAC

/-- Whether a job is a Register job. -/
def isRegister (j : Job) : Bool := decide (j.Kind = .Register)

/-- Whether the digest of a version entry differs from the registered one. -/
def changed (D : DigestMap) (cv : ChartVersion) : Bool :=
  decide (cv.Digest ≠ D.get (chartKey cv))

/-- The version entries of an index whose digest differs from the registered
one, each with its position in the version list of its package, in the order
of the index. -/
def changedSlots (D : DigestMap) (entries : List (String × List ChartVersion)) :
    List (Nat × ChartVersion) :=
  entries.flatMap fun g => g.2.enum.filter fun s => changed D s.2

/-- The Register job of the version entry at a position of its package's
version list: the logo is asked for at position 0 only. -/
def slotJob (r : ChartRepository) (s : Nat × ChartVersion) : Job :=
  { Kind := .Register, Repo := r, ChartVersion := s.2, GetLogo := decide (s.1 = 0) }

/-- The text of a key before its first separator (the whole key when it has
none). -/
def textBeforeSep (l : List Char) : List Char := l.takeWhile fun c => c != '@'

/-- The text of a key after its first separator (empty when it has none). -/
def textAfterSep (l : List Char) : List Char := (l.dropWhile fun c => c != '@').tail

/-- An index whose only entry A@1.0 has an empty digest. -/
def indexEmptyDigest : IndexFile := { Entries := [("A", [⟨"A", "1.0", ""⟩])] }

/-- The context that is done from the start. -/
def alwaysDone : Nat → Bool := fun _ => true

/-- The variables of one call of `generateSyncJobs` once both loads have
succeeded: `indexFile`, `registeredPackagesDigest`, `chartsAvailable`, the
jobs sent on `Queue` so far and the number of `ctx.Done()` checks made. -/
structure GenVars where
  indexFile : IndexFile
  registeredPackagesDigest : DigestMap
  chartsAvailable : List String
  sent : List Job
  checks : Nat
deriving DecidableEq, Repr

/-- The body of the inner loop of the registration pass, up to the check of
`ctx.Done()`, as a change of the variables. -/
def registerBody (r : ChartRepository) (i : Nat) (chartVersion : ChartVersion)
    (s : GenVars) : GenVars :=
  let getLogo : Bool := decide (i = 0)
  let key := chartKey chartVersion
  let s1 := { s with chartsAvailable := s.chartsAvailable ++ [key] }
  if chartVersion.Digest ≠ s1.registeredPackagesDigest.get key then
    { s1 with sent := s1.sent ++
        [{ Kind := .Register, Repo := r, ChartVersion := chartVersion, GetLogo := getLogo }] }
  else s1

/-- The inner loop of the registration pass on the variables; the second
component tells how the loop was left (`none`: it ran to its end). -/
def registerVersionsVars (ctxDone : Nat → Bool) (r : ChartRepository) :
    List ChartVersion → Nat → GenVars → GenVars × Option Exit
  | [], _, s => (s, none)
  | chartVersion :: rest, i, s =>
    let s1 := registerBody r i chartVersion s
    if ctxDone s1.checks then ({ s1 with checks := s1.checks + 1 }, some .cancelled)
    else registerVersionsVars ctxDone r rest (i + 1) { s1 with checks := s1.checks + 1 }

/-- The outer loop of the registration pass on the variables. -/
def registerEntriesVars (ctxDone : Nat → Bool) (r : ChartRepository) :
    List (String × List ChartVersion) → GenVars → GenVars × Option Exit
  | [], s => (s, none)
  | (_, chartVersions) :: rest, s =>
    match registerVersionsVars ctxDone r chartVersions 0 s with
    | (s1, some e) => (s1, some e)
    | (s1, none) => registerEntriesVars ctxDone r rest s1

/-- The unregistration pass on the variables. -/
def unregisterKeysVars (ctxDone : Nat → Bool) (r : ChartRepository) :
    DigestMap → GenVars → GenVars × Option Exit
  | [], s => (s, none)
  | (key, _) :: rest, s =>
    let s1 : Option GenVars :=
      if key ∈ s.chartsAvailable then some s
      else (unregisterJob r key).map fun job => { s with sent := s.sent ++ [job] }
    match s1 with
    | none => (s, some .panicked)
    | some s1 =>
      if ctxDone s1.checks then ({ s1 with checks := s1.checks + 1 }, some .cancelled)
      else unregisterKeysVars ctxDone r rest { s1 with checks := s1.checks + 1 }

/-- The two passes of `generateSyncJobs` on the variables, from the point where
both loads have succeeded: the variables when the body ends and how it
ended. -/
def syncPasses (ctxDone : Nat → Bool) (r : ChartRepository) (indexFile : IndexFile)
    (registeredPackagesDigest : DigestMap) : GenVars × Exit :=
  let s0 : GenVars :=
    { indexFile := indexFile, registeredPackagesDigest := registeredPackagesDigest,
      chartsAvailable := [], sent := [], checks := 0 }
  match registerEntriesVars ctxDone r s0.indexFile.Entries s0 with
  | (s1, some e) => (s1, e)
  | (s1, none) =>
    match unregisterKeysVars ctxDone r s1.registeredPackagesDigest s1 with
    | (s2, some e) => (s2, e)
    | (s2, none) => (s2, .completed)

end ChartTracker

/-!
Organization handlers

A shallow embedding of the handler `Handlers.CheckAvailability` of
`cmd/hub/handlers/org/handlers.go`. The response writer is a value that the
handler transforms; the organization manager is a function handed to the
model. The sentinel `org.ErrInvalidInput` and the value of
`helpers.BuildCacheControlHeader(0)` are parameters of the handler. Error
values are pointers: each carries the address of its object, and two error
values are the same error only when they are the same object, whatever their
text. Logging is left out.
-/

namespace OrgHandlers

/-- The error values the manager returns: a pointer to the object made by
`errors.New`, or a pointer to the object made by `fmt.Errorf` with a `%w`
verb, which keeps the wrapped error. `addr` is the address of the object. -/
inductive ErrorValue where
  | errorString (addr : Nat) (s : String)
  | wrapError (addr : Nat) (msg : String) (err : ErrorValue)
deriving DecidableEq, Repr

/-- The address of the object an error value points to. -/
def ErrorValue.addr : ErrorValue → Nat
  | .errorString addr _ => addr
  | .wrapError addr _ _ => addr

/-- Whether the dynamic type of an error value is `*fmt.wrapError` (and not
`*errors.errorString`). -/
def ErrorValue.isWrapError : ErrorValue → Bool
  | .errorString _ _ => false
  | .wrapError _ _ _ => true

/-- The method `Error()` of an error value. -/
def ErrorValue.Error : ErrorValue → String
  | .errorString _ s => s
  | .wrapError _ msg _ => msg

/-- The method `Unwrap()` of an error value. -/
def ErrorValue.Unwrap : ErrorValue → Option ErrorValue
  | .errorString _ _ => none
  | .wrapError _ _ err => some err

/-- The comparison `err == target` of two error interface values that hold
pointers: same dynamic type and same address. The text plays no part. -/
def sameObject (err target : ErrorValue) : Bool :=
  err.isWrapError == target.isWrapError && err.addr == target.addr

/-- The function `errors.Is`: its loop compares `err` with `target` and goes on
with `Unwrap(err)` until there is nothing to unwrap. -/
def errorsIs : ErrorValue → ErrorValue → Bool
  | .errorString addr s, target => sameObject (.errorString addr s) target
  | .wrapError addr msg err, target =>
    sameObject (.wrapError addr msg err) target || errorsIs err target

/-- The error and the errors reached from it by `Unwrap`, outermost first. -/
def ErrorValue.chain : ErrorValue → List ErrorValue
  | .errorString addr s => [.errorString addr s]
  | .wrapError addr msg err => .wrapError addr msg err :: err.chain

/-- An error wraps `target` when it is `target` itself or `target` is reached
from it by unwrapping: some error of its chain is the object `target`. -/
def Wraps (err target : ErrorValue) : Prop :=
  ∃ e ∈ err.chain, e.isWrapError = target.isWrapError ∧ e.addr = target.addr

instance (err target : ErrorValue) : Decidable (Wraps err target) := by
  unfold Wraps; infer_instance

/-- The constant `http.StatusOK`. -/
def StatusOK : Nat := 200

/-- The constant `http.StatusBadRequest`. -/
def StatusBadRequest : Nat := 400

/-- The constant `http.StatusNotFound`. -/
def StatusNotFound : Nat := 404

/-- The constant `http.StatusInternalServerError`. -/
def StatusInternalServerError : Nat := 500

/-- What the handler reads from the request: the URL parameter `resourceKind`
and the form value `v`. -/
structure Request where
  resourceKind : String
  v : String
deriving DecidableEq, Repr

/-- The state of an `http.ResponseWriter`: the header map, the status code
written by `WriteHeader` if any, and the body written so far. -/
structure ResponseWriter where
  header : List (String × String)
  status : Option Nat
  body : String
deriving DecidableEq, Repr

/-- The call `w.Header().Set(key, value)`: the value replaces the ones the key
had. -/
def ResponseWriter.headerSet (w : ResponseWriter) (key value : String) : ResponseWriter :=
  { w with header := (key, value) :: w.header.filter fun kv => decide (kv.1 ≠ key) }

/-- The call `w.WriteHeader(code)`: the first call fixes the status code, a
later one is ignored. -/
def ResponseWriter.WriteHeader (w : ResponseWriter) (code : Nat) : ResponseWriter :=
  match w.status with
  | some _ => w
  | none => { w with status := some code }

/-- The call `w.Write(data)`: it writes the header with `http.StatusOK` first
when `WriteHeader` has not been called. -/
def ResponseWriter.Write (w : ResponseWriter) (data : String) : ResponseWriter :=
  let w1 := w.WriteHeader StatusOK
  { w1 with body := w1.body ++ data }

/-- The status code of the response the server sends for a writer: the code
written, or `http.StatusOK` when the handler returned without writing one. -/
def ResponseWriter.statusCode (w : ResponseWriter) : Nat :=
  match w.status with
  | some code => code
  | none => StatusOK

/-- The function `http.Error(w, error, code)`: it sets the content type
headers, writes the status code and prints the message and a newline. -/
def httpError (w : ResponseWriter) (error : String) (code : Nat) : ResponseWriter :=
  let w1 := w.headerSet "Content-Type" "text/plain; charset=utf-8"
  let w2 := w1.headerSet "X-Content-Type-Options" "nosniff"
  let w3 := w2.WriteHeader code
  w3.Write (error ++ "\n")

/-- The handler `Handlers.CheckAvailability`. `orgManager resourceKind value` is
the pair returned by `h.orgManager.CheckAvailability`. -/
def CheckAvailability (orgManager : String → String → Bool × Option ErrorValue)
    (errInvalidInput : ErrorValue) (cacheControl : String) (w : ResponseWriter) (r : Request) :
    ResponseWriter :=
  let w1 := w.headerSet "Cache-Control" cacheControl
  let resourceKind := r.resourceKind
  let value := r.v
  match orgManager resourceKind value with
  | (_, some err) =>
    if errorsIs err errInvalidInput then httpError w1 err.Error StatusBadRequest
    else httpError w1 "" StatusInternalServerError
  | (available, none) =>
    if available then w1.WriteHeader StatusNotFound else w1

/-- A response writer on which nothing has been set or written. -/
def newResponse : ResponseWriter := { header := [], status := none, body := "" }

/-- The sentinel error of the examples, an object made by `errors.New`. -/
def errInvalid : ErrorValue := .errorString 1 "invalid input"

/-- A manager that rejects the resource kind `unknown` with an error that wraps
the sentinel, returns for the kind `lookalike` another object with the text of
the sentinel, fails with an unrelated error for the kind `broken`, and
otherwise reports the value `taken` as not available and every other value as
available. -/
def sampleManager : String → String → Bool × Option ErrorValue :=
  fun resourceKind value =>
    if resourceKind = "unknown" then
      (false, some (.wrapError 2 "invalid input: resource kind" errInvalid))
    else if resourceKind = "lookalike" then (false, some (.errorString 3 "invalid input"))
    else if resourceKind = "broken" then (false, some (.errorString 4 "connection refused"))
    else (decide (value ≠ "taken"), none)

end OrgHandlers

namespace ChartTracker

/-! ## The registration pass -/

theorem registerVersions_succ (D : DigestMap) (r : ChartRepository) (ctxDone : Nat → Bool)
    (cvs : List ChartVersion) (i n : Nat) :
    (registerVersions ctxDone D r cvs (i + 1) n).jobs <+:
        cvs.flatMap (registerJob D r false) ∧
      ((registerVersions ctxDone D r cvs (i + 1) n).left = none →
        (registerVersions ctxDone D r cvs (i + 1) n).jobs = cvs.flatMap (registerJob D r false) ∧
        (registerVersions ctxDone D r cvs (i + 1) n).keys = cvs.map chartKey) := by
  induction cvs generalizing i n with
  | nil => simp [registerVersions]
  | cons cv rest ih =>
    have h := ih (i + 1) (n + 1)
    by_cases hc : ctxDone n = true
    · simp [registerVersions, hc, registerJob]
    · simp only [registerVersions, hc, Bool.false_eq_true, if_false, List.flatMap_cons,
        Nat.add_eq_zero, one_ne_zero, and_false, decide_False, registerJob]
      refine ⟨(List.prefix_append_right_inj _).2 h.1, fun hl => ?_⟩
      have h2 := h.2 hl
      simp [h2.1, h2.2]

theorem registerVersions_zero (D : DigestMap) (r : ChartRepository) (ctxDone : Nat → Bool)
    (cvs : List ChartVersion) (n : Nat) :
    (registerVersions ctxDone D r cvs 0 n).jobs <+:
        (tagVersions cvs).flatMap (fun t => registerJob D r t.1 t.2) ∧
      ((registerVersions ctxDone D r cvs 0 n).left = none →
        (registerVersions ctxDone D r cvs 0 n).jobs =
          (tagVersions cvs).flatMap (fun t => registerJob D r t.1 t.2) ∧
        (registerVersions ctxDone D r cvs 0 n).keys = cvs.map chartKey) := by
  cases cvs with
  | nil => simp [registerVersions, tagVersions]
  | cons cv rest =>
    have h := registerVersions_succ D r ctxDone rest 0 (n + 1)
    have hmap : (rest.map fun c => (false, c)).flatMap (fun t => registerJob D r t.1 t.2) =
        rest.flatMap (registerJob D r false) := by
      simp [List.flatMap, List.map_map, Function.comp_def]
    by_cases hc : ctxDone n = true
    · simp [registerVersions, hc, registerJob, tagVersions]
    · simp only [zero_add] at h
      simp only [registerVersions, hc, Bool.false_eq_true, if_false, tagVersions,
        List.flatMap_cons, decide_True, hmap, zero_add]
      refine ⟨(List.prefix_append_right_inj _).2 h.1, fun hl => ?_⟩
      have h2 := h.2 hl
      rw [h2.1, h2.2]
      exact ⟨rfl, rfl⟩

theorem registerVersions_left (D : DigestMap) (r : ChartRepository) (ctxDone : Nat → Bool)
    (cvs : List ChartVersion) (i n : Nat) :
    (registerVersions ctxDone D r cvs i n).left = none ∨
      (registerVersions ctxDone D r cvs i n).left = some .cancelled := by
  induction cvs generalizing i n with
  | nil => simp [registerVersions]
  | cons cv rest ih =>
    by_cases hc : ctxDone n = true
    · simp [registerVersions, hc]
    · simpa [registerVersions, hc] using ih (i + 1) (n + 1)

theorem registerEntries_left (D : DigestMap) (r : ChartRepository) (ctxDone : Nat → Bool)
    (es : List (String × List ChartVersion)) (n : Nat) :
    (registerEntries ctxDone D r es n).left = none ∨
      (registerEntries ctxDone D r es n).left = some .cancelled := by
  induction es generalizing n with
  | nil => simp [registerEntries]
  | cons g rest ih =>
    obtain ⟨name, cvs⟩ := g
    rcases registerVersions_left D r ctxDone cvs 0 n with h | h
    · simpa [registerEntries, h] using ih _
    · simp [registerEntries, h]

theorem registerEntries_jobs (D : DigestMap) (r : ChartRepository) (ctxDone : Nat → Bool)
    (es : List (String × List ChartVersion)) (n : Nat) :
    (registerEntries ctxDone D r es n).jobs <+: registerJobs D r es ∧
      ((registerEntries ctxDone D r es n).left = none →
        (registerEntries ctxDone D r es n).jobs = registerJobs D r es ∧
        (registerEntries ctxDone D r es n).keys = entryKeys es) := by
  induction es generalizing n with
  | nil => simp [registerEntries, registerJobs, taggedVersions, entryKeys]
  | cons g rest ih =>
    obtain ⟨name, cvs⟩ := g
    have hz := registerVersions_zero D r ctxDone cvs n
    have hsplit : registerJobs D r ((name, cvs) :: rest) =
        (tagVersions cvs).flatMap (fun t => registerJob D r t.1 t.2) ++ registerJobs D r rest := by
      simp [registerJobs, taggedVersions, List.flatMap_append]
    have hkeys : entryKeys ((name, cvs) :: rest) = cvs.map chartKey ++ entryKeys rest := by
      simp [entryKeys]
    rcases registerVersions_left D r ctxDone cvs 0 n with h | h
    · have h2 := hz.2 h
      have hr := ih (registerVersions ctxDone D r cvs 0 n).checks
      simp only [registerEntries, h, hsplit, hkeys, h2.1, h2.2]
      refine ⟨(List.prefix_append_right_inj _).2 hr.1, fun hl => ?_⟩
      have h3 := hr.2 hl
      simp [h3.1, h3.2]
    · simp only [registerEntries, h, hsplit]
      exact ⟨hz.1.trans (List.prefix_append _ _), fun hl => by simp at hl⟩

theorem registerJob_mem {D : DigestMap} {r : ChartRepository} {b : Bool} {cv : ChartVersion}
    {j : Job} (h : j ∈ registerJob D r b cv) :
    j = ⟨.Register, r, cv, b⟩ ∧ cv.Digest ≠ D.get (chartKey cv) := by
  unfold registerJob at h
  split at h
  · rename_i hd
    exact ⟨by simpa using h, hd⟩
  · simp at h

theorem registerJobs_mem {D : DigestMap} {r : ChartRepository}
    {es : List (String × List ChartVersion)} {j : Job} (h : j ∈ registerJobs D r es) :
    ∃ t ∈ taggedVersions es, j = ⟨.Register, r, t.2, t.1⟩ ∧
      t.2.Digest ≠ D.get (chartKey t.2) := by
  simp only [registerJobs, List.mem_flatMap] at h
  obtain ⟨t, ht, hj⟩ := h
  exact ⟨t, ht, registerJob_mem hj⟩

theorem tagVersions_snd (cvs : List ChartVersion) : (tagVersions cvs).map Prod.snd = cvs := by
  cases cvs with
  | nil => rfl
  | cons cv rest => simp [tagVersions, List.map_map, Function.comp_def]

theorem taggedVersions_snd (es : List (String × List ChartVersion)) :
    (taggedVersions es).map Prod.snd = es.flatMap Prod.snd := by
  induction es with
  | nil => rfl
  | cons g rest ih =>
    simp only [taggedVersions, List.flatMap_cons, List.map_append, tagVersions_snd] at ih ⊢
    rw [ih]

/-! ## Splitting keys -/

theorem splitChars_ne_nil (sep : Char) (l : List Char) : splitChars sep l ≠ [] := by
  cases l with
  | nil => simp [splitChars]
  | cons c cs =>
    unfold splitChars
    split
    · simp
    · split <;> simp

theorem splitChars_length (sep : Char) (l : List Char) :
    (splitChars sep l).length = l.count sep + 1 := by
  induction l with
  | nil => simp [splitChars]
  | cons c cs ih =>
    unfold splitChars
    by_cases hc : c = sep
    · simp [hc, ih]
    · have hne : (c == sep) = false := by simpa using hc
      rw [if_neg hc, List.count_cons, hne]
      cases hs : splitChars sep cs with
      | nil => exact absurd hs (splitChars_ne_nil sep cs)
      | cons p ps => simp [← ih, hs]

theorem splitChars_one {sep : Char} {l b : List Char} (h : splitChars sep l = [b]) : l = b := by
  induction l generalizing b with
  | nil => simpa [splitChars] using h
  | cons c cs ih =>
    unfold splitChars at h
    by_cases hc : c = sep
    · rw [if_pos hc] at h
      simp only [List.cons.injEq] at h
      exact absurd h.2 (splitChars_ne_nil sep cs)
    · rw [if_neg hc] at h
      cases hs : splitChars sep cs with
      | nil => exact absurd hs (splitChars_ne_nil sep cs)
      | cons p ps =>
        rw [hs] at h
        simp only [List.cons.injEq] at h
        obtain ⟨h1, h2⟩ := h
        subst h2
        rw [ih hs, h1]

theorem splitChars_two {sep : Char} {l a b : List Char} (h : splitChars sep l = [a, b]) :
    l = a ++ sep :: b := by
  induction l generalizing a with
  | nil => simp [splitChars] at h
  | cons c cs ih =>
    unfold splitChars at h
    by_cases hc : c = sep
    · rw [if_pos hc] at h
      simp only [List.cons.injEq] at h
      obtain ⟨h1, h2⟩ := h
      rw [← h1, splitChars_one h2, hc]
      rfl
    · rw [if_neg hc] at h
      cases hs : splitChars sep cs with
      | nil => exact absurd hs (splitChars_ne_nil sep cs)
      | cons p ps =>
        rw [hs] at h
        simp only [List.cons.injEq] at h
        obtain ⟨h1, h2⟩ := h
        subst h2
        rw [ih hs, ← h1]
        rfl

theorem chartKey_data (cv : ChartVersion) :
    (chartKey cv).data = cv.Name.data ++ '@' :: cv.Version.data := by
  simp [chartKey, String.data_append]

theorem unregisterJob_oneSeparator (r : ChartRepository) {key : String}
    (h : oneSeparator key) :
    ∃ j, unregisterJob r key = some j ∧ chartKey j.ChartVersion = key := by
  have hlen : (splitChars '@' key.data).length = 2 := by
    rw [splitChars_length, h]
  match hs : splitChars '@' key.data, hlen with
  | [a, b], _ =>
    refine ⟨⟨.Unregister, r, ⟨⟨a⟩, ⟨b⟩, ""⟩, false⟩, ?_, ?_⟩
    · simp [unregisterJob, stringsSplit, hs]
    · apply String.ext
      rw [chartKey_data, splitChars_two hs]

theorem unregisterJob_fields {r : ChartRepository} {key : String} {j : Job}
    (h : unregisterJob r key = some j) :
    j.Kind = .Unregister ∧ j.Repo = r ∧ j.GetLogo = false ∧ j.ChartVersion.Digest = "" := by
  unfold unregisterJob at h
  split at h
  · simp only [Option.some.injEq] at h
    subst h
    exact ⟨rfl, rfl, rfl, rfl⟩
  · simp at h

/-! ## The unregistration pass -/

theorem unregisterKeys_mem (ctxDone : Nat → Bool) (avail : List String) (r : ChartRepository)
    (D : DigestMap) (n : Nat) {j : Job} (h : j ∈ (unregisterKeys ctxDone avail r D n).jobs) :
    ∃ k ∈ D.keys, k ∉ avail ∧ unregisterJob r k = some j := by
  induction D generalizing n with
  | nil => simp [unregisterKeys] at h
  | cons kv rest ih =>
    obtain ⟨key, d⟩ := kv
    have hrest : j ∈ (unregisterKeys ctxDone avail r rest (n + 1)).jobs →
        ∃ k ∈ DigestMap.keys ((key, d) :: rest), k ∉ avail ∧ unregisterJob r k = some j := by
      intro hj
      obtain ⟨k, hk, hk2⟩ := ih (n + 1) hj
      exact ⟨k, by simp only [DigestMap.keys, List.map_cons, List.mem_cons] at hk ⊢; exact Or.inr hk, hk2⟩
    unfold unregisterKeys at h
    by_cases ha : key ∈ avail
    · by_cases hc : ctxDone n = true
      · simp [ha, hc] at h
      · simp only [ha, hc, if_true, Bool.false_eq_true, if_false, List.nil_append] at h
        exact hrest h
    · cases hu : unregisterJob r key with
      | none => simp [ha, hu] at h
      | some job =>
        have hhead : j = job → ∃ k ∈ DigestMap.keys ((key, d) :: rest),
            k ∉ avail ∧ unregisterJob r k = some j := by
          intro hj
          exact ⟨key, by simp [DigestMap.keys], ha, by rw [hu, hj]⟩
        by_cases hc : ctxDone n = true
        · simp only [ha, hu, hc, if_false, if_true, Option.map_some', List.mem_singleton] at h
          exact hhead h
        · simp only [ha, hu, hc, if_false, Bool.false_eq_true, Option.map_some',
            List.singleton_append, List.mem_cons] at h
          rcases h with h | h
          · exact hhead h
          · exact hrest h

theorem unregisterKeys_neverDone (avail : List String) (r : ChartRepository)
    (D : DigestMap) (n : Nat)
    (hok : ∀ k ∈ D.keys, k ∉ avail → (unregisterJob r k).isSome) :
    unregisterKeys neverDone avail r D n =
      ⟨(D.keys.filter fun k => k ∉ avail).filterMap (unregisterJob r), [], n + D.length, none⟩ := by
  induction D generalizing n with
  | nil => simp [unregisterKeys, DigestMap.keys]
  | cons kv rest ih =>
    obtain ⟨key, d⟩ := kv
    have hrest := ih (n + 1) (fun k hk => hok k (by
      simp only [DigestMap.keys, List.map_cons, List.mem_cons] at hk ⊢; exact Or.inr hk))
    unfold unregisterKeys
    by_cases ha : key ∈ avail
    · simp only [ha, if_true, neverDone, Bool.false_eq_true, if_false, hrest]
      simp [DigestMap.keys, ha]
      omega
    · have hsome := hok key (by simp [DigestMap.keys]) ha
      obtain ⟨job, hjob⟩ := Option.isSome_iff_exists.1 hsome
      simp only [ha, if_false, hjob, Option.map_some', neverDone, Bool.false_eq_true, hrest]
      simp [DigestMap.keys, ha, hjob]
      omega

/-! ## Cancellation -/

theorem firstDone_eq {ctxDone : Nat → Bool} {f n : Nat}
    (hlt : ∀ m, m < f → ctxDone m = false) (hn : n ≤ f) (hc : ctxDone n = true) : n = f := by
  rcases Nat.lt_or_ge n f with h | h
  · rw [hlt n h] at hc
    exact absurd hc (by simp)
  · omega

theorem firstDone_lt {ctxDone : Nat → Bool} {f n : Nat}
    (hf : ctxDone f = true) (hn : n ≤ f) (hc : ¬ ctxDone n = true) : n + 1 ≤ f := by
  rcases Nat.lt_or_ge n f with h | h
  · omega
  · have : n = f := by omega
    subst this
    exact absurd hf hc

theorem registerVersions_cancel {ctxDone : Nat → Bool} {f : Nat} (hf : ctxDone f = true)
    (hlt : ∀ m, m < f → ctxDone m = false) (D : DigestMap) (r : ChartRepository)
    (cvs : List ChartVersion) (i n : Nat) (hn : n ≤ f) :
    CutAt f (registerVersions ctxDone D r cvs i n) (registerVersions neverDone D r cvs i n) := by
  induction cvs generalizing i n with
  | nil => exact Or.inl ⟨rfl, hn, by simp [registerVersions]⟩
  | cons cv rest ih =>
    by_cases hc : ctxDone n = true
    · have hnf := firstDone_eq hlt hn hc
      subst hnf
      refine Or.inr ?_
      simp [registerVersions, hc, neverDone]
    · have hn1 := firstDone_lt hf hn hc
      rcases ih (i + 1) (n + 1) hn1 with ⟨h1, h2, h3⟩ | ⟨h1, h2, h3⟩
      · refine Or.inl ?_
        simp only [registerVersions, hc, neverDone, Bool.false_eq_true, if_false]
        rw [h1] at h2 h3
        rw [h1]
        exact ⟨rfl, h2, h3⟩
      · refine Or.inr ?_
        simp only [registerVersions, hc, neverDone, Bool.false_eq_true, if_false]
        exact ⟨h1, h2, (List.prefix_append_right_inj _).2 h3⟩

theorem registerVersions_neverDone_left (D : DigestMap) (r : ChartRepository)
    (cvs : List ChartVersion) (i n : Nat) :
    (registerVersions neverDone D r cvs i n).left = none := by
  induction cvs generalizing i n with
  | nil => rfl
  | cons c t ih => simpa [registerVersions, neverDone] using ih (i + 1) (n + 1)

theorem registerEntries_cancel {ctxDone : Nat → Bool} {f : Nat} (hf : ctxDone f = true)
    (hlt : ∀ m, m < f → ctxDone m = false) (D : DigestMap) (r : ChartRepository)
    (es : List (String × List ChartVersion)) (n : Nat) (hn : n ≤ f) :
    CutAt f (registerEntries ctxDone D r es n) (registerEntries neverDone D r es n) := by
  induction es generalizing n with
  | nil => exact Or.inl ⟨rfl, hn, by simp [registerEntries]⟩
  | cons g rest ih =>
    obtain ⟨name, cvs⟩ := g
    have hleft2 := registerVersions_neverDone_left D r cvs 0 n
    rcases registerVersions_cancel hf hlt D r cvs 0 n hn with ⟨h1, h2, _⟩ | ⟨h1, h2, h3⟩
    · rw [h1] at h2
      simp only [registerEntries, h1, hleft2]
      rcases ih (registerVersions neverDone D r cvs 0 n).checks h2 with
        ⟨k1, k2, k3⟩ | ⟨k1, k2, k3⟩
      · refine Or.inl ?_
        rw [k1] at k2 k3
        rw [k1]
        exact ⟨rfl, k2, k3⟩
      · exact Or.inr ⟨k1, k2, (List.prefix_append_right_inj _).2 k3⟩
    · refine Or.inr ?_
      simp only [registerEntries, h1, hleft2]
      exact ⟨trivial, h2, h3.trans (List.prefix_append _ _)⟩

theorem unregisterKeys_cancel {ctxDone : Nat → Bool} {f : Nat} (hf : ctxDone f = true)
    (hlt : ∀ m, m < f → ctxDone m = false) (avail : List String) (r : ChartRepository)
    (D : DigestMap) (n : Nat) (hn : n ≤ f) :
    CutAt f (unregisterKeys ctxDone avail r D n) (unregisterKeys neverDone avail r D n) := by
  induction D generalizing n with
  | nil => exact Or.inl ⟨rfl, hn, by simp [unregisterKeys]⟩
  | cons kv rest ih =>
    obtain ⟨key, d⟩ := kv
    unfold unregisterKeys
    cases hs : (if key ∈ avail then some []
        else (unregisterJob r key).map fun job => [job] : Option (List Job)) with
    | none => exact Or.inl ⟨rfl, hn, by simp⟩
    | some jobs =>
      by_cases hc : ctxDone n = true
      · have hnf := firstDone_eq hlt hn hc
        subst hnf
        refine Or.inr ?_
        simp [hc, neverDone]
      · have hn1 := firstDone_lt hf hn hc
        rcases ih (n + 1) hn1 with ⟨h1, h2, h3⟩ | ⟨h1, h2, h3⟩
        · refine Or.inl ?_
          simp only [hc, neverDone, Bool.false_eq_true, if_false]
          rw [h1] at h2 h3
          rw [h1]
          exact ⟨rfl, h2, h3⟩
        · refine Or.inr ?_
          simp only [hc, neverDone, Bool.false_eq_true, if_false]
          exact ⟨h1, h2, (List.prefix_append_right_inj _).2 h3⟩

/-! ## The generator as a whole -/

theorem registerEntries_neverDone_left (D : DigestMap) (r : ChartRepository)
    (es : List (String × List ChartVersion)) (n : Nat) :
    (registerEntries neverDone D r es n).left = none := by
  induction es generalizing n with
  | nil => rfl
  | cons g rest ih =>
    obtain ⟨name, cvs⟩ := g
    simpa [registerEntries, registerVersions_neverDone_left] using ih _

theorem generateSyncJobs_neverDone {il : ChartRepository → Except GoError IndexFile}
    {rm : String → Except GoError DigestMap} {r : ChartRepository} {idx : IndexFile}
    {D : DigestMap} (hil : il r = .ok idx) (hrm : rm r.ChartRepositoryID = .ok D) :
    (generateSyncJobs il rm neverDone r).jobs =
      registerJobs D r idx.Entries ++
        (unregisterKeys neverDone (entryKeys idx.Entries) r D
          (registerEntries neverDone D r idx.Entries 0).checks).jobs := by
  have hl := registerEntries_neverDone_left D r idx.Entries 0
  have hp := (registerEntries_jobs D r neverDone idx.Entries 0).2 hl
  simp only [generateSyncJobs, hil, hrm, hl, hp.1, hp.2]

theorem generateSyncJobs_parts {il : ChartRepository → Except GoError IndexFile}
    {rm : String → Except GoError DigestMap} (ctxDone : Nat → Bool) {r : ChartRepository}
    {idx : IndexFile} {D : DigestMap} (hil : il r = .ok idx)
    (hrm : rm r.ChartRepositoryID = .ok D) :
    ∃ regs uns, (generateSyncJobs il rm ctxDone r).jobs = regs ++ uns ∧
      regs <+: registerJobs D r idx.Entries ∧
      ∀ j ∈ uns, ∃ k ∈ D.keys, k ∉ entryKeys idx.Entries ∧ unregisterJob r k = some j := by
  have hp := registerEntries_jobs D r ctxDone idx.Entries 0
  rcases registerEntries_left D r ctxDone idx.Entries 0 with hl | hl
  · have hp2 := hp.2 hl
    refine ⟨registerJobs D r idx.Entries,
      (unregisterKeys ctxDone (entryKeys idx.Entries) r D
        (registerEntries ctxDone D r idx.Entries 0).checks).jobs, ?_, List.prefix_refl _, ?_⟩
    · simp only [generateSyncJobs, hil, hrm, hl, hp2.1, hp2.2]
    · intro j hj
      exact unregisterKeys_mem ctxDone _ r D _ hj
  · refine ⟨(registerEntries ctxDone D r idx.Entries 0).jobs, [], ?_, hp.1, ?_⟩
    · simp only [generateSyncJobs, hil, hrm, hl, List.append_nil]
    · intro j hj
      simp at hj

theorem generateSyncJobs_failed {il : ChartRepository → Except GoError IndexFile}
    {rm : String → Except GoError DigestMap} (ctxDone : Nat → Bool) {r : ChartRepository}
    (h : (∃ err, il r = .error err) ∨ (∃ err, rm r.ChartRepositoryID = .error err)) :
    (generateSyncJobs il rm ctxDone r).jobs = [] := by
  unfold generateSyncJobs
  cases hil : il r with
  | error e => rfl
  | ok idx =>
    rcases h with ⟨err, he⟩ | ⟨err, he⟩
    · rw [hil] at he
      cases he
    · simp only [he]

theorem registerJobs_kind {D : DigestMap} {r : ChartRepository}
    {es : List (String × List ChartVersion)} {j : Job} (h : j ∈ registerJobs D r es) :
    j.Kind = .Register := by
  obtain ⟨t, _, hj, _⟩ := registerJobs_mem h
  rw [hj]

theorem lookup_mem {D : DigestMap} {k d : String} (h : D.lookup k = some d) : (k, d) ∈ D := by
  induction D with
  | nil => simp at h
  | cons kv rest ih =>
    obtain ⟨k2, d2⟩ := kv
    by_cases hk : k = k2
    · subst hk
      simp only [List.lookup_cons, beq_self_eq_true, Option.some.injEq] at h
      simp [h]
    · have hne : (k == k2) = false := by simpa using hk
      simp only [List.lookup_cons, hne] at h
      exact List.mem_cons_of_mem _ (ih h)

theorem lookup_of_mem {D : DigestMap} {k d : String} (h : (k, d) ∈ D) :
    ∃ d2, D.lookup k = some d2 := by
  induction D with
  | nil => simp at h
  | cons kv rest ih =>
    obtain ⟨k2, d2⟩ := kv
    by_cases hk : k = k2
    · subst hk
      exact ⟨d2, by simp [List.lookup_cons]⟩
    · have hne : (k == k2) = false := by simpa using hk
      have hrest : (k, d) ∈ rest := by
        rcases List.mem_cons.1 h with h | h
        · exact absurd (congrArg Prod.fst h) hk
        · exact h
      obtain ⟨d3, h3⟩ := ih hrest
      exact ⟨d3, by simp [List.lookup_cons, hne, h3]⟩

/-! ## Register and Unregister keys -/

/-- C1: when the index load and the digest lookup succeed and the run is never
cancelled, a key is the key name@version of an emitted Register job if and
only if it is the key of an index entry whose digest differs from the one
read from the registered digests (the empty digest when the key is absent). -/
theorem register_keys_eq_changed_keys (il : ChartRepository → Except GoError IndexFile)
    (rm : String → Except GoError DigestMap) (r : ChartRepository) (idx : IndexFile)
    (D : DigestMap) (hil : il r = .ok idx) (hrm : rm r.ChartRepositoryID = .ok D)
    (k : String) :
    (∃ j ∈ (generateSyncJobs il rm neverDone r).jobs,
        j.Kind = .Register ∧ chartKey j.ChartVersion = k) ↔
      (∃ cv ∈ idx.versions, chartKey cv = k ∧ cv.Digest ≠ D.get k) := by
  rw [generateSyncJobs_neverDone hil hrm]
  constructor
  · rintro ⟨j, hj, hkind, hkey⟩
    rcases List.mem_append.1 hj with hj | hj
    · obtain ⟨t, ht, hjt, hd⟩ := registerJobs_mem hj
      have hmem : t.2 ∈ idx.versions := by
        have : t.2 ∈ (taggedVersions idx.Entries).map Prod.snd := List.mem_map_of_mem _ ht
        rwa [taggedVersions_snd] at this
      subst hjt
      exact ⟨t.2, hmem, hkey, hkey ▸ hd⟩
    · obtain ⟨k2, _, _, hu⟩ := unregisterKeys_mem _ _ _ _ _ hj
      rw [(unregisterJob_fields hu).1] at hkind
      cases hkind
  · rintro ⟨cv, hcv, hkey, hd⟩
    have hmem : cv ∈ (taggedVersions idx.Entries).map Prod.snd := by
      rw [taggedVersions_snd]; exact hcv
    obtain ⟨t, ht, htcv⟩ := List.mem_map.1 hmem
    refine ⟨⟨.Register, r, cv, t.1⟩, List.mem_append_left _ ?_, rfl, hkey⟩
    simp only [registerJobs, List.mem_flatMap]
    refine ⟨t, ht, ?_⟩
    rw [htcv]
    subst hkey
    simp [registerJob, hd]

/-- C1, at the index with packages A and B and the key of B. -/
theorem register_keys_eq_changed_keys_witness :
    (∃ j ∈ (generateSyncJobs (loadOk indexAB) (digestOk digestAC) neverDone repoR).jobs,
        j.Kind = .Register ∧ chartKey j.ChartVersion = "B@2.0") ↔
      (∃ cv ∈ indexAB.versions, chartKey cv = "B@2.0" ∧ cv.Digest ≠ DigestMap.get digestAC "B@2.0") :=
  register_keys_eq_changed_keys (loadOk indexAB) (digestOk digestAC) repoR indexAB digestAC
    rfl rfl "B@2.0"

/-- C2, as stated, fails: the registered key `a@b@c` contains the separator
and is absent from the (empty) index, yet no Unregister job has that key: the
job built from it carries name `a` and version `b`. -/
theorem unregister_keys_counterexample :
    (∀ k ∈ DigestMap.keys [("a@b@c", "z")], '@' ∈ k.data) ∧
      ¬ ((∃ j ∈ (generateSyncJobs (loadOk ⟨[]⟩) (digestOk [("a@b@c", "z")]) neverDone repoR).jobs,
            j.Kind = .Unregister ∧ chartKey j.ChartVersion = "a@b@c") ↔
          ("a@b@c" ∈ DigestMap.keys [("a@b@c", "z")] ∧ "a@b@c" ∉ IndexFile.keys ⟨[]⟩)) := by
  decide

/-- C2, amended: when the index load and the digest lookup succeed, the run is
never cancelled and every registered key contains the separator exactly once,
a key is the key name@version of an emitted Unregister job if and only if it
is registered and no index entry has it. -/
theorem unregister_keys_eq_registered_minus_index
    (il : ChartRepository → Except GoError IndexFile)
    (rm : String → Except GoError DigestMap) (r : ChartRepository) (idx : IndexFile)
    (D : DigestMap) (hil : il r = .ok idx) (hrm : rm r.ChartRepositoryID = .ok D)
    (hone : ∀ k ∈ D.keys, oneSeparator k) (k : String) :
    (∃ j ∈ (generateSyncJobs il rm neverDone r).jobs,
        j.Kind = .Unregister ∧ chartKey j.ChartVersion = k) ↔
      (k ∈ D.keys ∧ k ∉ idx.keys) := by
  rw [generateSyncJobs_neverDone hil hrm]
  constructor
  · rintro ⟨j, hj, hkind, hkey⟩
    rcases List.mem_append.1 hj with hj | hj
    · rw [registerJobs_kind hj] at hkind
      cases hkind
    · obtain ⟨k2, hk2, hav, hu⟩ := unregisterKeys_mem _ _ _ _ _ hj
      obtain ⟨j2, hj2, hkey2⟩ := unregisterJob_oneSeparator r (hone k2 hk2)
      rw [hu] at hj2
      cases hj2
      rw [hkey] at hkey2
      subst hkey2
      exact ⟨hk2, hav⟩
  · rintro ⟨hk, hav⟩
    obtain ⟨j, hj, hkey⟩ := unregisterJob_oneSeparator r (hone k hk)
    refine ⟨j, List.mem_append_right _ ?_, (unregisterJob_fields hj).1, hkey⟩
    rw [unregisterKeys_neverDone]
    · simp only [List.mem_filterMap, List.mem_filter, decide_eq_true_eq]
      exact ⟨k, ⟨hk, hav⟩, hj⟩
    · intro k2 hk2 _
      obtain ⟨j2, hj2, _⟩ := unregisterJob_oneSeparator r (hone k2 hk2)
      simp [hj2]

/-- C2 amended, at the scenario with registered keys A@1.0 and C@1.0. -/
theorem unregister_keys_eq_registered_minus_index_witness :
    (∃ j ∈ (generateSyncJobs (loadOk indexAB) (digestOk digestAC) neverDone repoR).jobs,
        j.Kind = .Unregister ∧ chartKey j.ChartVersion = "C@1.0") ↔
      ("C@1.0" ∈ DigestMap.keys digestAC ∧ "C@1.0" ∉ indexAB.keys) :=
  unregister_keys_eq_registered_minus_index (loadOk indexAB) (digestOk digestAC) repoR indexAB
    digestAC rfl rfl (by decide) "C@1.0"

/-! ## The logo flag -/

theorem filter_logo_rest (D : DigestMap) (r : ChartRepository) (name : String)
    (cvs : List ChartVersion) :
    (cvs.flatMap (registerJob D r false)).filter (isLogoJob name) = [] := by
  rw [List.filter_eq_nil_iff]
  intro j hj
  obtain ⟨cv, _, hcv⟩ := List.mem_flatMap.1 hj
  rw [(registerJob_mem hcv).1]
  simp [isLogoJob]

theorem filter_logo_group (D : DigestMap) (r : ChartRepository) (name : String)
    (cv : ChartVersion) (rest : List ChartVersion) :
    ((tagVersions (cv :: rest)).flatMap (fun t => registerJob D r t.1 t.2)).filter
        (isLogoJob name) = (registerJob D r true cv).filter (isLogoJob name) := by
  have hmap : (rest.map fun c => (false, c)).flatMap (fun t => registerJob D r t.1 t.2) =
      rest.flatMap (registerJob D r false) := by
    simp [List.flatMap, List.map_map, Function.comp_def]
  simp only [tagVersions, List.flatMap_cons, List.filter_append, hmap, filter_logo_rest,
    List.append_nil]

theorem filter_logo_other (D : DigestMap) (r : ChartRepository) (name : String)
    (es : List (String × List ChartVersion))
    (hwf : ∀ g ∈ es, ∀ cv ∈ g.2, cv.Name = g.1) (hno : ∀ g ∈ es, g.1 ≠ name) :
    (registerJobs D r es).filter (isLogoJob name) = [] := by
  rw [List.filter_eq_nil_iff]
  intro j hj
  obtain ⟨t, ht, hjt, _⟩ := registerJobs_mem hj
  obtain ⟨g, hg, htg⟩ := List.mem_flatMap.1 ht
  have hcv : t.2 ∈ g.2 := by
    have : t.2 ∈ (tagVersions g.2).map Prod.snd := List.mem_map_of_mem _ htg
    rwa [tagVersions_snd] at this
  have hname : t.2.Name ≠ name := by
    rw [hwf g hg t.2 hcv]
    exact hno g hg
  rw [hjt]
  simp [isLogoJob, hname]

theorem filter_logo_entries (D : DigestMap) (r : ChartRepository) (name : String)
    (cvs : List ChartVersion) (es : List (String × List ChartVersion))
    (hnames : (es.map Prod.fst).Nodup) (hwf : ∀ g ∈ es, ∀ cv ∈ g.2, cv.Name = g.1)
    (hg : (name, cvs) ∈ es) :
    (registerJobs D r es).filter (isLogoJob name) =
      ((tagVersions cvs).flatMap (fun t => registerJob D r t.1 t.2)).filter (isLogoJob name) := by
  induction es with
  | nil => simp at hg
  | cons g rest ih =>
    have hsplit : registerJobs D r (g :: rest) =
        (tagVersions g.2).flatMap (fun t => registerJob D r t.1 t.2) ++ registerJobs D r rest := by
      simp [registerJobs, taggedVersions, List.flatMap_append]
    simp only [List.map_cons, List.nodup_cons, List.mem_map, not_exists, not_and] at hnames
    have hwfr : ∀ g2 ∈ rest, ∀ cv ∈ g2.2, cv.Name = g2.1 :=
      fun g2 hg2 => hwf g2 (List.mem_cons_of_mem _ hg2)
    rw [hsplit, List.filter_append]
    rcases List.mem_cons.1 hg with hhead | htail
    · subst hhead
      have hno : ∀ g2 ∈ rest, g2.1 ≠ name := fun g2 hg2 => hnames.1 g2 hg2
      rw [filter_logo_other D r name rest hwfr hno, List.append_nil]
    · have hne : g.1 ≠ name := fun h => hnames.1 (name, cvs) htail h.symm
      have hhead : ((tagVersions g.2).flatMap (fun t => registerJob D r t.1 t.2)).filter
          (isLogoJob name) = [] := by
        have := filter_logo_other D r name [g]
          (fun g2 hg2 => hwf g2 (by simp only [List.mem_singleton] at hg2; simp [hg2]))
          (fun g2 hg2 => by simp only [List.mem_singleton] at hg2; rw [hg2]; exact hne)
        simpa [registerJobs, taggedVersions] using this
      rw [hhead, List.nil_append]
      exact ih hnames.2 hwfr htail

/-- C3, as stated, fails: package A has a version entry (its second) whose
digest differs from the registered one, and none of the Register jobs emitted
has GetLogo = true, since the first entry of the package is unchanged. -/
theorem one_logo_job_per_changed_package_counterexample :
    ("A", [(⟨"A", "2.0", "x"⟩ : ChartVersion), ⟨"A", "1.0", "y"⟩]) ∈ indexTwoVersions.Entries ∧
      (∃ cv ∈ [(⟨"A", "2.0", "x"⟩ : ChartVersion), ⟨"A", "1.0", "y"⟩],
        cv.Digest ≠ DigestMap.get [("A@2.0", "x")] (chartKey cv)) ∧
      (generateSyncJobs (loadOk indexTwoVersions) (digestOk [("A@2.0", "x")]) neverDone repoR).jobs
        = [⟨.Register, repoR, ⟨"A", "1.0", "y"⟩, false⟩] ∧
      ¬ (((generateSyncJobs (loadOk indexTwoVersions) (digestOk [("A@2.0", "x")]) neverDone
          repoR).jobs.filter (isLogoJob "A")).length = 1) := by
  decide

/-- C3, amended: when the index load and the digest lookup succeed and the run
is never cancelled, for an index whose package names are distinct and whose
version entries carry the name of their package, and for every package of the
index: the number of Register jobs emitted for that package with GetLogo =
true is one when the first version entry of the package has a digest that
differs from the registered one, and zero otherwise (also when only a later
version entry differs). -/
theorem one_logo_job_iff_first_version_changed
    (il : ChartRepository → Except GoError IndexFile)
    (rm : String → Except GoError DigestMap) (r : ChartRepository) (idx : IndexFile)
    (D : DigestMap) (hil : il r = .ok idx) (hrm : rm r.ChartRepositoryID = .ok D)
    (hnames : (idx.Entries.map Prod.fst).Nodup)
    (hwf : ∀ g ∈ idx.Entries, ∀ cv ∈ g.2, cv.Name = g.1)
    (name : String) (cvs : List ChartVersion) (hg : (name, cvs) ∈ idx.Entries) :
    (∀ cv, cvs.head? = some cv → cv.Digest ≠ D.get (chartKey cv) →
        ((generateSyncJobs il rm neverDone r).jobs.filter (isLogoJob name)).length = 1) ∧
      ((∀ cv, cvs.head? = some cv → cv.Digest = D.get (chartKey cv)) →
        ((generateSyncJobs il rm neverDone r).jobs.filter (isLogoJob name)).length = 0) := by
  have hun : ((unregisterKeys neverDone (entryKeys idx.Entries) r D
      (registerEntries neverDone D r idx.Entries 0).checks).jobs).filter (isLogoJob name) = [] := by
    rw [List.filter_eq_nil_iff]
    intro j hj
    obtain ⟨k, _, _, hu⟩ := unregisterKeys_mem _ _ _ _ _ hj
    simp [isLogoJob, (unregisterJob_fields hu).1]
  rw [generateSyncJobs_neverDone hil hrm, List.filter_append, hun, List.append_nil,
    filter_logo_entries D r name cvs idx.Entries hnames hwf hg]
  have hname : ∀ cv ∈ cvs, cv.Name = name := hwf (name, cvs) hg
  cases cvs with
  | nil => simp [tagVersions]
  | cons cv rest =>
    rw [filter_logo_group]
    have hn := hname cv (List.mem_cons_self _ _)
    constructor
    · intro cv2 h2 hd
      simp only [List.head?_cons, Option.some.injEq] at h2
      subst h2
      simp [registerJob, hd, isLogoJob, hn]
    · intro h
      have hd := h cv rfl
      simp [registerJob, hd]

/-- C3 amended, at the index with packages A and B and package B, whose only
version is new. -/
theorem one_logo_job_iff_first_version_changed_witness :
    (∀ cv, [(⟨"B", "2.0", "y"⟩ : ChartVersion)].head? = some cv →
        cv.Digest ≠ DigestMap.get digestAC (chartKey cv) →
        ((generateSyncJobs (loadOk indexAB) (digestOk digestAC) neverDone repoR).jobs.filter
          (isLogoJob "B")).length = 1) ∧
      ((∀ cv, [(⟨"B", "2.0", "y"⟩ : ChartVersion)].head? = some cv →
          cv.Digest = DigestMap.get digestAC (chartKey cv)) →
        ((generateSyncJobs (loadOk indexAB) (digestOk digestAC) neverDone repoR).jobs.filter
          (isLogoJob "B")).length = 0) :=
  one_logo_job_iff_first_version_changed (loadOk indexAB) (digestOk digestAC) repoR indexAB
    digestAC rfl rfl (by decide) (by decide) "B" [⟨"B", "2.0", "y"⟩] (by decide)

/-! ## Idempotence -/

/-- C4: for an index whose keys name@version are pairwise distinct and a
registered digest set that maps exactly the keys of the index to the digests
of their entries, the generator emits no job at all, whenever the context is
found done or not. -/
theorem no_jobs_after_completed_run (il : ChartRepository → Except GoError IndexFile)
    (rm : String → Except GoError DigestMap) (ctxDone : Nat → Bool) (r : ChartRepository)
    (idx : IndexFile) (D : DigestMap) (hil : il r = .ok idx)
    (hrm : rm r.ChartRepositoryID = .ok D) (hnodup : idx.keys.Nodup)
    (hin : ∀ cv ∈ idx.versions, (chartKey cv, cv.Digest) ∈ D)
    (hout : ∀ kv ∈ D, ∃ cv ∈ idx.versions, chartKey cv = kv.1 ∧ cv.Digest = kv.2) :
    (generateSyncJobs il rm ctxDone r).jobs = [] := by
  have hget : ∀ cv ∈ idx.versions, cv.Digest = D.get (chartKey cv) := by
    intro cv hcv
    obtain ⟨d, hd⟩ := lookup_of_mem (hin cv hcv)
    obtain ⟨cv2, hcv2, hk, hdig⟩ := hout _ (lookup_mem hd)
    have heq : cv2 = cv := List.inj_on_of_nodup_map hnodup hcv2 hcv hk
    subst heq
    simp only at hdig
    simp [DigestMap.get, hd, hdig]
  obtain ⟨regs, uns, hjobs, hregs, huns⟩ := generateSyncJobs_parts ctxDone hil hrm
  have hreg0 : registerJobs D r idx.Entries = [] := by
    rw [List.eq_nil_iff_forall_not_mem]
    intro j hj
    obtain ⟨t, ht, _, hd⟩ := registerJobs_mem hj
    have hmem : t.2 ∈ idx.versions := by
      have : t.2 ∈ (taggedVersions idx.Entries).map Prod.snd := List.mem_map_of_mem _ ht
      rwa [taggedVersions_snd] at this
    exact hd (hget t.2 hmem)
  have hr : regs = [] := by
    rw [hreg0] at hregs
    exact List.prefix_nil.1 hregs
  have hu : uns = [] := by
    rw [List.eq_nil_iff_forall_not_mem]
    intro j hj
    obtain ⟨k, hk, hav, _⟩ := huns j hj
    obtain ⟨kv, hkv, hfst⟩ := List.mem_map.1 hk
    obtain ⟨cv, hcv, hkey, _⟩ := hout kv hkv
    apply hav
    rw [← hfst, ← hkey]
    exact List.mem_map_of_mem _ hcv
  rw [hjobs, hr, hu]
  rfl

/-- C4, at the index with packages A and B and the digests it leaves
registered. -/
theorem no_jobs_after_completed_run_witness :
    (generateSyncJobs (loadOk indexAB) (digestOk digestAB) neverDone repoR).jobs = [] :=
  no_jobs_after_completed_run (loadOk indexAB) (digestOk digestAB) neverDone repoR indexAB
    digestAB rfl rfl (by decide) (by decide) (by decide)

/-! ## Closing the queue -/

/-- C5, the code at the failing input: with two repositories and a limiter
whose second wait fails, `Run` launches the generator of the first repository
and then closes the queue and signals the caller without waiting on
`wgRepos`; when no wait fails the wait comes before the close. -/
theorem run_limiter_error_closes_without_wait :
    Run limiterSecondFails [repoR, repoS] =
        [.launch repoR, .limiterError (.errorString "context canceled"), .closeQueue, .wgDone] ∧
      RunEvent.wgReposWait ∉ Run limiterSecondFails [repoR, repoS] ∧
      Run (fun _ => none) [repoR, repoS] =
        [.launch repoR, .launch repoS, .wgReposWait, .closeQueue, .wgDone] := by
  decide

/-! ## Cancellation of the generator -/

theorem generateSyncJobs_cancel {ctxDone : Nat → Bool} {f : Nat} (hf : ctxDone f = true)
    (hlt : ∀ m, m < f → ctxDone m = false) (il : ChartRepository → Except GoError IndexFile)
    (rm : String → Except GoError DigestMap) (r : ChartRepository) :
    (generateSyncJobs il rm ctxDone r = generateSyncJobs il rm neverDone r ∧
        (generateSyncJobs il rm ctxDone r).checks ≤ f ∧
        (generateSyncJobs il rm ctxDone r).exit ≠ .cancelled) ∨
      ((generateSyncJobs il rm ctxDone r).exit = .cancelled ∧
        (generateSyncJobs il rm ctxDone r).checks = f + 1 ∧
        (generateSyncJobs il rm ctxDone r).jobs <+: (generateSyncJobs il rm neverDone r).jobs) := by
  unfold generateSyncJobs
  cases hil : il r with
  | error e => exact Or.inl ⟨rfl, Nat.zero_le _, by simp⟩
  | ok idx =>
    cases hrm : rm r.ChartRepositoryID with
    | error e => exact Or.inl ⟨rfl, Nat.zero_le _, by simp⟩
    | ok D =>
      have hu := registerEntries_neverDone_left D r idx.Entries 0
      rcases registerEntries_cancel hf hlt D r idx.Entries 0 (Nat.zero_le _) with
        ⟨h1, h2, _⟩ | ⟨h1, h2, h3⟩
      · rw [h1] at h2
        simp only [h1, hu]
        rcases unregisterKeys_cancel hf hlt (registerEntries neverDone D r idx.Entries 0).keys r D
            (registerEntries neverDone D r idx.Entries 0).checks h2 with
          ⟨k1, k2, k3⟩ | ⟨k1, k2, k3⟩
        · refine Or.inl ?_
          rw [k1] at k2 k3
          rw [k1]
          refine ⟨rfl, k2, ?_⟩
          cases hleft : (unregisterKeys neverDone (registerEntries neverDone D r idx.Entries 0).keys
              r D (registerEntries neverDone D r idx.Entries 0).checks).left with
          | none => simp
          | some e =>
            rw [hleft] at k3
            simpa using k3
        · refine Or.inr ?_
          simp only [k1]
          exact ⟨trivial, k2, (List.prefix_append_right_inj _).2 k3⟩
      · refine Or.inr ?_
        simp only [h1, hu]
        exact ⟨trivial, h2, h3.trans (List.prefix_append _ _)⟩

/-- C6: when check number `f` of `ctx.Done()` is the first that finds the
context done, the jobs the generator emits are a prefix of the jobs the same
inputs give in an uncancelled run; the generator makes at most `f + 1` checks,
it makes exactly `f + 1` if and only if it returns at that check, and when it
does not return there its whole outcome is that of the uncancelled run. -/
theorem cancelled_jobs_prefix_of_uncancelled (il : ChartRepository → Except GoError IndexFile)
    (rm : String → Except GoError DigestMap) (ctxDone : Nat → Bool) (r : ChartRepository)
    (f : Nat) (hf : ctxDone f = true) (hlt : ∀ m, m < f → ctxDone m = false) :
    (generateSyncJobs il rm ctxDone r).jobs <+: (generateSyncJobs il rm neverDone r).jobs ∧
      (generateSyncJobs il rm ctxDone r).checks ≤ f + 1 ∧
      ((generateSyncJobs il rm ctxDone r).checks = f + 1 ↔
        (generateSyncJobs il rm ctxDone r).exit = .cancelled) ∧
      ((generateSyncJobs il rm ctxDone r).exit ≠ .cancelled →
        generateSyncJobs il rm ctxDone r = generateSyncJobs il rm neverDone r) := by
  rcases generateSyncJobs_cancel hf hlt il rm r with ⟨h1, h2, h3⟩ | ⟨h1, h2, h3⟩
  · refine ⟨by rw [h1], by omega, ⟨fun h => by omega, fun h => absurd h h3⟩, fun _ => h1⟩
  · exact ⟨h3, by omega, ⟨fun _ => h1, fun _ => h2⟩, fun h => absurd h1 h⟩

/-- C6, at an index with three new versions and a context found done at the
second check: two of the three Register jobs are emitted. -/
theorem cancelled_jobs_prefix_of_uncancelled_witness :
    (generateSyncJobs (loadOk indexThree) (digestOk []) doneFromSecond repoR).jobs <+:
        (generateSyncJobs (loadOk indexThree) (digestOk []) neverDone repoR).jobs ∧
      (generateSyncJobs (loadOk indexThree) (digestOk []) doneFromSecond repoR).checks ≤ 1 + 1 ∧
      ((generateSyncJobs (loadOk indexThree) (digestOk []) doneFromSecond repoR).checks = 1 + 1 ↔
        (generateSyncJobs (loadOk indexThree) (digestOk []) doneFromSecond repoR).exit
          = .cancelled) ∧
      ((generateSyncJobs (loadOk indexThree) (digestOk []) doneFromSecond repoR).exit
          ≠ .cancelled →
        generateSyncJobs (loadOk indexThree) (digestOk []) doneFromSecond repoR =
          generateSyncJobs (loadOk indexThree) (digestOk []) neverDone repoR) :=
  cancelled_jobs_prefix_of_uncancelled (loadOk indexThree) (digestOk []) doneFromSecond repoR 1
    (by decide) (fun m hm => by
      have h0 : m = 0 := by omega
      subst h0
      decide)

/-! ## Scenarios -/

/-- C7: for the index with A@1.0 (digest x) and B@2.0 (digest y), each the only
version of its package, and the registered digests A@1.0: x and C@1.0: z, the
generator emits exactly a Register job for B 2.0 with GetLogo = true followed
by an Unregister job for C 1.0, in whichever order the two maps are visited. -/
theorem scenario_register_B_unregister_C :
    (generateSyncJobs (loadOk indexAB) (digestOk digestAC) neverDone repoR).jobs =
        [⟨.Register, repoR, ⟨"B", "2.0", "y"⟩, true⟩,
         ⟨.Unregister, repoR, ⟨"C", "1.0", ""⟩, false⟩] ∧
      (generateSyncJobs (loadOk indexBA) (digestOk digestAC) neverDone repoR).jobs =
        [⟨.Register, repoR, ⟨"B", "2.0", "y"⟩, true⟩,
         ⟨.Unregister, repoR, ⟨"C", "1.0", ""⟩, false⟩] ∧
      (generateSyncJobs (loadOk indexAB) (digestOk digestCA) neverDone repoR).jobs =
        [⟨.Register, repoR, ⟨"B", "2.0", "y"⟩, true⟩,
         ⟨.Unregister, repoR, ⟨"C", "1.0", ""⟩, false⟩] ∧
      (generateSyncJobs (loadOk indexBA) (digestOk digestCA) neverDone repoR).jobs =
        [⟨.Register, repoR, ⟨"B", "2.0", "y"⟩, true⟩,
         ⟨.Unregister, repoR, ⟨"C", "1.0", ""⟩, false⟩] := by
  decide

theorem unregisterJob_count {r : ChartRepository} {key : String} {j : Job}
    (h : unregisterJob r key = some j) : 1 ≤ key.data.count '@' := by
  have hlen := splitChars_length '@' key.data
  unfold unregisterJob stringsSplit at h
  cases hs : splitChars '@' key.data with
  | nil => exact absurd hs (splitChars_ne_nil _ _)
  | cons a rest =>
    cases rest with
    | nil => simp [hs] at h
    | cons b rest2 =>
      rw [hs] at hlen
      simp only [List.length_cons] at hlen
      omega

/-- C9: in the job sequence of one call of the generator no Register job comes
after an Unregister job, whatever the loads return and whenever the context is
found done. -/
theorem register_before_unregister (il : ChartRepository → Except GoError IndexFile)
    (rm : String → Except GoError DigestMap) (ctxDone : Nat → Bool) (r : ChartRepository) :
    (generateSyncJobs il rm ctxDone r).jobs.Pairwise
      (fun a b => ¬ (a.Kind = .Unregister ∧ b.Kind = .Register)) := by
  cases hil : il r with
  | error e =>
    rw [generateSyncJobs_failed ctxDone (Or.inl ⟨e, hil⟩)]
    exact List.Pairwise.nil
  | ok idx =>
    cases hrm : rm r.ChartRepositoryID with
    | error e =>
      rw [generateSyncJobs_failed ctxDone (Or.inr ⟨e, hrm⟩)]
      exact List.Pairwise.nil
    | ok D =>
      obtain ⟨regs, uns, hjobs, hregs, huns⟩ := generateSyncJobs_parts ctxDone hil hrm
      have hr : ∀ a ∈ regs, a.Kind = .Register :=
        fun a ha => registerJobs_kind (hregs.subset ha)
      have hu : ∀ b ∈ uns, b.Kind = .Unregister := by
        intro b hb
        obtain ⟨k, _, _, hk⟩ := huns b hb
        exact (unregisterJob_fields hk).1
      rw [hjobs, List.pairwise_append]
      refine ⟨?_, ?_, ?_⟩
      · refine List.Pairwise.imp_of_mem ?_ (List.pairwise_of_forall (R := fun _ _ => True)
          (fun _ _ => trivial))
        intro a b ha _ _ h
        rw [hr a ha] at h
        cases h.1
      · refine List.Pairwise.imp_of_mem ?_ (List.pairwise_of_forall (R := fun _ _ => True)
          (fun _ _ => trivial))
        intro a b _ hb _ h
        rw [hu b hb] at h
        cases h.2
      · intro a ha b _ h
        rw [hr a ha] at h
        cases h.1

/-! ## Load failure -/

/-- C10: when the index loader returns an error, the generator appends exactly
one entry to the error collector, keyed by the repository's id and wrapping
the loader's error, does not call the digest lookup, emits no job and
returns. -/
theorem load_error_is_collected (il : ChartRepository → Except GoError IndexFile)
    (rm : String → Except GoError DigestMap) (ctxDone : Nat → Bool) (r : ChartRepository)
    (err : GoError) (h : il r = .error err) :
    (generateSyncJobs il rm ctxDone r).jobs = [] ∧
      (generateSyncJobs il rm ctxDone r).lookups = [] ∧
      (generateSyncJobs il rm ctxDone r).exit = .loadFailed ∧
      ∃ e, (generateSyncJobs il rm ctxDone r).errors = [(r.ChartRepositoryID, e)] ∧
        e.Unwrap = some err ∧
        e.Error = "error loading repository index file" ++ ": " ++ err.Error := by
  have hg : generateSyncJobs il rm ctxDone r =
      ⟨[], [(r.ChartRepositoryID, errorfWrap "error loading repository index file" err)], [], 0,
        .loadFailed⟩ := by
    simp only [generateSyncJobs, h]
  rw [hg]
  exact ⟨rfl, rfl, rfl, _, rfl, rfl, rfl⟩

/-- C10, at a loader that reports `not found`. -/
theorem load_error_is_collected_witness :
    (generateSyncJobs loadFails (digestOk digestAC) neverDone repoR).jobs = [] ∧
      (generateSyncJobs loadFails (digestOk digestAC) neverDone repoR).lookups = [] ∧
      (generateSyncJobs loadFails (digestOk digestAC) neverDone repoR).exit = .loadFailed ∧
      ∃ e, (generateSyncJobs loadFails (digestOk digestAC) neverDone repoR).errors =
          [(repoR.ChartRepositoryID, e)] ∧
        e.Unwrap = some (.errorString "not found") ∧
        e.Error = "error loading repository index file" ++ ": " ++
          (GoError.errorString "not found").Error :=
  load_error_is_collected loadFails (digestOk digestAC) neverDone repoR
    (.errorString "not found") rfl

/-! ## Lookup failure -/

/-- C11: when the index load succeeds and the digest lookup returns an error,
the generator emits no job and makes no call of `ec.Append`; it has called the
lookup once and returns. -/
theorem lookup_error_is_not_collected (il : ChartRepository → Except GoError IndexFile)
    (rm : String → Except GoError DigestMap) (ctxDone : Nat → Bool) (r : ChartRepository)
    (idx : IndexFile) (err : GoError) (hil : il r = .ok idx)
    (hrm : rm r.ChartRepositoryID = .error err) :
    (generateSyncJobs il rm ctxDone r).jobs = [] ∧
      (generateSyncJobs il rm ctxDone r).errors = [] ∧
      (generateSyncJobs il rm ctxDone r).lookups = [r.ChartRepositoryID] ∧
      (generateSyncJobs il rm ctxDone r).exit = .lookupFailed := by
  have hg : generateSyncJobs il rm ctxDone r =
      ⟨[], [], [r.ChartRepositoryID], 0, .lookupFailed⟩ := by
    simp only [generateSyncJobs, hil, hrm]
  rw [hg]
  exact ⟨rfl, rfl, rfl, rfl⟩

/-- C11, at an index that loads and a lookup that is refused. -/
theorem lookup_error_is_not_collected_witness :
    (generateSyncJobs (loadOk indexAB) digestFails neverDone repoR).jobs = [] ∧
      (generateSyncJobs (loadOk indexAB) digestFails neverDone repoR).errors = [] ∧
      (generateSyncJobs (loadOk indexAB) digestFails neverDone repoR).lookups =
        [repoR.ChartRepositoryID] ∧
      (generateSyncJobs (loadOk indexAB) digestFails neverDone repoR).exit = .lookupFailed :=
  lookup_error_is_not_collected (loadOk indexAB) digestFails neverDone repoR indexAB
    (.errorString "connection refused") rfl rfl

/-! ## Admission -/

theorem launched_append (a b : List RunEvent) : launched (a ++ b) = launched a ++ launched b := by
  induction a with
  | nil => rfl
  | cons e rest ih => cases e <;> simp [launched, ih]

theorem admitRepos_launched (limiter : Nat → Option GoError) (repos : List ChartRepository)
    (k i : Nat) (hlt : ∀ m, m < i → limiter (k + m) = none) :
    (i < repos.length → limiter (k + i) ≠ none →
        launched (admitRepos limiter repos k).1 = repos.take i ∧
        (admitRepos limiter repos k).2 = true) ∧
      (repos.length ≤ i →
        (admitRepos limiter repos k).1 = repos.map RunEvent.launch ∧
        (admitRepos limiter repos k).2 = false) := by
  induction repos generalizing k i with
  | nil =>
    refine ⟨fun h => absurd h (by simp), fun _ => ⟨rfl, rfl⟩⟩
  | cons r rest ih =>
    cases i with
    | zero =>
      refine ⟨fun _ hne => ?_, fun h => absurd h (by simp)⟩
      simp only [Nat.add_zero] at hne
      cases hl : limiter k with
      | none => exact absurd hl hne
      | some err => simp [admitRepos, hl, launched]
    | succ i =>
      have h0 : limiter k = none := by simpa using hlt 0 (Nat.succ_pos i)
      have hlt2 : ∀ m, m < i → limiter (k + 1 + m) = none := by
        intro m hm
        have := hlt (m + 1) (by omega)
        rwa [show k + (m + 1) = k + 1 + m by omega] at this
      have hr := ih (k + 1) i hlt2
      simp only [admitRepos, h0, launched, List.length_cons, List.take_succ_cons, List.map_cons]
      constructor
      · intro hi hne
        have := hr.1 (by omega) (by rwa [show k + 1 + i = k + (i + 1) by omega])
        exact ⟨by rw [this.1], this.2⟩
      · intro hi
        have := hr.2 (by omega)
        exact ⟨by rw [this.1], this.2⟩

theorem launched_map_launch (repos : List ChartRepository) :
    launched (repos.map RunEvent.launch) = repos := by
  induction repos with
  | nil => rfl
  | cons r rest ih => simp [launched, ih]

/-- C12: when the limiter wait at position `i` of the repository list is the
first that returns an error, `Run` launches one generator for each of the
repositories before position `i`, in list order, and none for position `i` or
later; when no wait made for the list returns an error, it launches one
generator for every repository of the list, in list order. -/
theorem run_launches_before_first_limiter_error (limiter : Nat → Option GoError)
    (repos : List ChartRepository) (i : Nat) (hlt : ∀ m, m < i → limiter m = none) :
    (i < repos.length → limiter i ≠ none → launched (Run limiter repos) = repos.take i) ∧
      (repos.length ≤ i → launched (Run limiter repos) = repos) := by
  have h := admitRepos_launched limiter repos 0 i (by simpa using hlt)
  simp only [Nat.zero_add] at h
  constructor
  · intro hi hne
    have h1 := h.1 hi hne
    simp [Run, launched_append, h1.1, h1.2, launched]
  · intro hi
    have h2 := h.2 hi
    simp [Run, launched_append, h2.1, h2.2, launched, launched_map_launch]

/-- C12, at two repositories and a limiter whose second wait fails: only the
first repository gets a generator. -/
theorem run_launches_before_first_limiter_error_witness :
    (1 < [repoR, repoS].length → limiterSecondFails 1 ≠ none →
        launched (Run limiterSecondFails [repoR, repoS]) = [repoR, repoS].take 1) ∧
      ([repoR, repoS].length ≤ 1 → launched (Run limiterSecondFails [repoR, repoS]) =
        [repoR, repoS]) :=
  run_launches_before_first_limiter_error limiterSecondFails [repoR, repoS] 1
    (fun m hm => by
      have h0 : m = 0 := by omega
      subst h0
      decide)

/-! ## Runs of the dispatcher -/

theorem generateSyncJobs_failed_exit {il : ChartRepository → Except GoError IndexFile}
    {rm : String → Except GoError DigestMap} (ctxDone : Nat → Bool) {r : ChartRepository}
    (h : (∃ err, il r = .error err) ∨ (∃ err, rm r.ChartRepositoryID = .error err)) :
    (generateSyncJobs il rm ctxDone r).exit = .loadFailed ∨
      (generateSyncJobs il rm ctxDone r).exit = .lookupFailed := by
  unfold generateSyncJobs
  cases hil : il r with
  | error e => exact Or.inl rfl
  | ok idx =>
    rcases h with ⟨err, he⟩ | ⟨err, he⟩
    · rw [hil] at he
      cases he
    · simp only [he]
      exact Or.inr trivial

theorem launchAll_length (il : ChartRepository → Except GoError IndexFile)
    (rm : String → Except GoError DigestMap) (ctxDone : Nat → Nat → Bool)
    (repos : List ChartRepository) (k : Nat) :
    (launchAll il rm ctxDone repos k).length = repos.length := by
  induction repos generalizing k with
  | nil => rfl
  | cons r rest ih => simp [launchAll, ih]

theorem launchAll_mem {il : ChartRepository → Except GoError IndexFile}
    {rm : String → Except GoError DigestMap} {ctxDone : Nat → Nat → Bool}
    {repos : List ChartRepository} {k : Nat} {g : GenResult}
    (h : g ∈ launchAll il rm ctxDone repos k) :
    ∃ r ∈ repos, ∃ m, g = generateSyncJobs il rm (ctxDone m) r := by
  induction repos generalizing k with
  | nil => simp [launchAll] at h
  | cons r rest ih =>
    simp only [launchAll, List.mem_cons] at h
    rcases h with h | h
    · exact ⟨r, List.mem_cons_self _ _, k, h⟩
    · obtain ⟨r2, hr2, m, hm⟩ := ih h
      exact ⟨r2, List.mem_cons_of_mem _ hr2, m, hm⟩

theorem run_never_limited (limiter : Nat → Option GoError) (repos : List ChartRepository)
    (hlim : ∀ m, limiter m = none) :
    Run limiter repos = repos.map RunEvent.launch ++ [.wgReposWait, .closeQueue, .wgDone] := by
  have h := (admitRepos_launched limiter repos 0 repos.length (fun m _ => hlim _)).2
    (Nat.le_refl _)
  simp [Run, h.1, h.2]

/-- C13: when every repository of the list fails at the index load or at the
digest lookup and the limiter never reports an error, `Run` launches a
generator for every repository, every generator returns after its failure
without sending a job, and `Run` then waits on `wgRepos`, closes `Queue` and
signals the caller's wait group: no job is delivered and no panic ends the
process. -/
theorem run_all_failures_closes_queue (il : ChartRepository → Except GoError IndexFile)
    (rm : String → Except GoError DigestMap) (ctxDone : Nat → Nat → Bool)
    (limiter : Nat → Option GoError) (repos : List ChartRepository)
    (hfail : ∀ r ∈ repos, (∃ err, il r = .error err) ∨
      (∃ err, rm r.ChartRepositoryID = .error err))
    (hlim : ∀ m, limiter m = none) :
    (runDispatcher il rm ctxDone limiter repos).delivered = some [] ∧
      (runDispatcher il rm ctxDone limiter repos).events =
        repos.map RunEvent.launch ++ [.wgReposWait, .closeQueue, .wgDone] ∧
      (runDispatcher il rm ctxDone limiter repos).generators.length = repos.length ∧
      ∀ g ∈ (runDispatcher il rm ctxDone limiter repos).generators,
        g.jobs = [] ∧ (g.exit = .loadFailed ∨ g.exit = .lookupFailed) := by
  have hrun := run_never_limited limiter repos hlim
  have hl : launched (Run limiter repos) = repos := by
    rw [hrun, launched_append, launched_map_launch]
    simp [launched]
  have hgen : ∀ g ∈ launchAll il rm ctxDone repos 0,
      g.jobs = [] ∧ (g.exit = .loadFailed ∨ g.exit = .lookupFailed) := by
    intro g hg
    obtain ⟨r, hr, m, hm⟩ := launchAll_mem hg
    rw [hm]
    exact ⟨generateSyncJobs_failed _ (hfail r hr), generateSyncJobs_failed_exit _ (hfail r hr)⟩
  simp only [runDispatcher, hl]
  refine ⟨?_, hrun, launchAll_length _ _ _ _ _, hgen⟩
  have hcrash : (RunResult.crashed ⟨Run limiter repos, launchAll il rm ctxDone repos 0⟩) = false := by
    simp only [RunResult.crashed, List.any_eq_false, decide_eq_true_eq]
    intro g hg hp
    rcases (hgen g hg).2 with h | h <;> rw [h] at hp <;> cases hp
  have hjobs : (RunResult.queueJobs ⟨Run limiter repos, launchAll il rm ctxDone repos 0⟩) = [] := by
    simp only [RunResult.queueJobs, List.flatMap_eq_nil_iff]
    intro g hg
    exact (hgen g hg).1
  simp [RunResult.delivered, hcrash, hjobs]

/-- C13, at two repositories whose index loads fail. -/
theorem run_all_failures_closes_queue_witness :
    (runDispatcher loadFails (digestOk digestAC) (fun _ => neverDone) limiterOk
        [repoR, repoS]).delivered = some [] ∧
      (runDispatcher loadFails (digestOk digestAC) (fun _ => neverDone) limiterOk
        [repoR, repoS]).events =
        [repoR, repoS].map RunEvent.launch ++ [.wgReposWait, .closeQueue, .wgDone] ∧
      (runDispatcher loadFails (digestOk digestAC) (fun _ => neverDone) limiterOk
        [repoR, repoS]).generators.length = [repoR, repoS].length ∧
      ∀ g ∈ (runDispatcher loadFails (digestOk digestAC) (fun _ => neverDone) limiterOk
          [repoR, repoS]).generators,
        g.jobs = [] ∧ (g.exit = .loadFailed ∨ g.exit = .lookupFailed) :=
  run_all_failures_closes_queue loadFails (digestOk digestAC) (fun _ => neverDone) limiterOk
    [repoR, repoS] (fun _ _ => Or.inl ⟨_, rfl⟩) (fun _ => rfl)

theorem generateSyncJobs_repo (il : ChartRepository → Except GoError IndexFile)
    (rm : String → Except GoError DigestMap) (ctxDone : Nat → Bool) (r : ChartRepository)
    {j : Job} (hj : j ∈ (generateSyncJobs il rm ctxDone r).jobs) : j.Repo = r := by
  cases hil : il r with
  | error e =>
    rw [generateSyncJobs_failed ctxDone (Or.inl ⟨e, hil⟩)] at hj
    simp at hj
  | ok idx =>
    cases hrm : rm r.ChartRepositoryID with
    | error e =>
      rw [generateSyncJobs_failed ctxDone (Or.inr ⟨e, hrm⟩)] at hj
      simp at hj
    | ok D =>
      obtain ⟨regs, uns, hjobs, hregs, huns⟩ := generateSyncJobs_parts ctxDone hil hrm
      rw [hjobs] at hj
      rcases List.mem_append.1 hj with h | h
      · obtain ⟨t, _, hjt, _⟩ := registerJobs_mem (hregs.subset h)
        rw [hjt]
      · obtain ⟨k, _, _, hk⟩ := huns j h
        exact (unregisterJob_fields hk).2.1

theorem jobsOf_launchAll (il : ChartRepository → Except GoError IndexFile)
    (rm : String → Except GoError DigestMap) (r : ChartRepository)
    (repos : List ChartRepository) (k : Nat) :
    jobsOf r ((launchAll il rm (fun _ => neverDone) repos k).flatMap fun g => g.jobs) =
      (List.replicate (repos.count r) (generateSyncJobs il rm neverDone r).jobs).flatMap id := by
  induction repos generalizing k with
  | nil => simp [launchAll, jobsOf]
  | cons r2 rest ih =>
    have ih2 := ih (k + 1)
    simp only [jobsOf] at ih2 ⊢
    simp only [launchAll, List.flatMap_cons, List.filter_append, ih2]
    by_cases h : r2 = r
    · subst h
      have hall : (generateSyncJobs il rm neverDone r2).jobs.filter
          (fun j => decide (j.Repo = r2)) = (generateSyncJobs il rm neverDone r2).jobs := by
        rw [List.filter_eq_self]
        intro j hj
        simpa using generateSyncJobs_repo il rm neverDone r2 hj
      simp [hall, List.replicate_succ]
    · have hnone : (generateSyncJobs il rm neverDone r2).jobs.filter
          (fun j => decide (j.Repo = r)) = [] := by
        rw [List.filter_eq_nil_iff]
        intro j hj
        rw [generateSyncJobs_repo il rm neverDone r2 hj]
        simpa using h
      simp [hnone, List.count_cons, h]

theorem generateSyncJobs_congr {il1 il2 : ChartRepository → Except GoError IndexFile}
    {rm1 rm2 : String → Except GoError DigestMap} (ctxDone : Nat → Bool) {r : ChartRepository}
    (hil : il1 r = il2 r) (hrm : rm1 r.ChartRepositoryID = rm2 r.ChartRepositoryID) :
    generateSyncJobs il1 rm1 ctxDone r = generateSyncJobs il2 rm2 ctxDone r := by
  simp only [generateSyncJobs, hil, hrm]

/-- C14, as stated, fails in two ways. A list that contains the repository
twice launches two generators for it, so its jobs are delivered twice, while
a list that contains it once delivers them once. And when the digest lookup
of another repository returns a registered key without separator, the
generator of that repository panics, which ends the process: the jobs of the
first repository are then not all delivered, although its own load and lookup
return the same as in a run where the other repository merely fails to
load. -/
theorem failure_isolation_counterexample :
    (repoR ∈ [repoR, repoR] ∧ repoR ∈ [repoR] ∧
        ¬ ∃ q1 q2,
          (runDispatcher (loadOk indexAB) (digestOk digestAC) (fun _ => neverDone) limiterOk
            [repoR, repoR]).delivered = some q1 ∧
          (runDispatcher (loadOk indexAB) (digestOk digestAC) (fun _ => neverDone) limiterOk
            [repoR]).delivered = some q2 ∧
          (jobsOf repoR q1).Perm (jobsOf repoR q2)) ∧
      (loadUnlessS repoR = loadEmptyForS repoR ∧
        digestOk digestAC repoR.ChartRepositoryID = digestBadForS repoR.ChartRepositoryID ∧
        (runDispatcher loadUnlessS (digestOk digestAC) (fun _ => neverDone) limiterOk
          [repoS, repoR]).delivered =
          some [⟨.Register, repoR, ⟨"B", "2.0", "y"⟩, true⟩,
                ⟨.Unregister, repoR, ⟨"C", "1.0", ""⟩, false⟩] ∧
        (runDispatcher loadEmptyForS digestBadForS (fun _ => neverDone) limiterOk
          [repoS, repoR]).crashed = true ∧
        (runDispatcher loadEmptyForS digestBadForS (fun _ => neverDone) limiterOk
          [repoS, repoR]).delivered = none) := by
  refine ⟨⟨by decide, by decide, ?_⟩, rfl, rfl, by decide, by decide, by decide⟩
  rintro ⟨q1, q2, h1, h2, hp⟩
  have e1 : (runDispatcher (loadOk indexAB) (digestOk digestAC) (fun _ => neverDone) limiterOk
      [repoR, repoR]).delivered = some
        [⟨.Register, repoR, ⟨"B", "2.0", "y"⟩, true⟩,
         ⟨.Unregister, repoR, ⟨"C", "1.0", ""⟩, false⟩,
         ⟨.Register, repoR, ⟨"B", "2.0", "y"⟩, true⟩,
         ⟨.Unregister, repoR, ⟨"C", "1.0", ""⟩, false⟩] := by decide
  have e2 : (runDispatcher (loadOk indexAB) (digestOk digestAC) (fun _ => neverDone) limiterOk
      [repoR]).delivered = some
        [⟨.Register, repoR, ⟨"B", "2.0", "y"⟩, true⟩,
         ⟨.Unregister, repoR, ⟨"C", "1.0", ""⟩, false⟩] := by decide
  rw [e1] at h1
  rw [e2] at h2
  cases h1
  cases h2
  have hlen := hp.length_eq
  revert hlen
  decide

/-- C14, amended: for every two uncancelled runs of the dispatcher in which
the index loader and the digest lookup return the same results for repository
r, in which no generator panics, and over repository lists in which r occurs
the same number of times, the jobs delivered with Repo = r are the same
multiset in both runs, whatever the loads and lookups of the other
repositories return. -/
theorem failure_isolation (il1 il2 : ChartRepository → Except GoError IndexFile)
    (rm1 rm2 : String → Except GoError DigestMap) (limiter1 limiter2 : Nat → Option GoError)
    (repos1 repos2 : List ChartRepository) (r : ChartRepository)
    (hil : il1 r = il2 r) (hrm : rm1 r.ChartRepositoryID = rm2 r.ChartRepositoryID)
    (hlim1 : ∀ m, limiter1 m = none) (hlim2 : ∀ m, limiter2 m = none)
    (hcount : repos1.count r = repos2.count r)
    (hc1 : (runDispatcher il1 rm1 (fun _ => neverDone) limiter1 repos1).crashed = false)
    (hc2 : (runDispatcher il2 rm2 (fun _ => neverDone) limiter2 repos2).crashed = false) :
    ∃ q1 q2,
      (runDispatcher il1 rm1 (fun _ => neverDone) limiter1 repos1).delivered = some q1 ∧
      (runDispatcher il2 rm2 (fun _ => neverDone) limiter2 repos2).delivered = some q2 ∧
      (jobsOf r q1).Perm (jobsOf r q2) := by
  refine ⟨(runDispatcher il1 rm1 (fun _ => neverDone) limiter1 repos1).queueJobs,
    (runDispatcher il2 rm2 (fun _ => neverDone) limiter2 repos2).queueJobs,
    by simp [RunResult.delivered, hc1], by simp [RunResult.delivered, hc2], ?_⟩
  have hl : ∀ (limiter : Nat → Option GoError) (repos : List ChartRepository),
      (∀ m, limiter m = none) → launched (Run limiter repos) = repos := by
    intro limiter repos hlim
    rw [run_never_limited limiter repos hlim, launched_append, launched_map_launch]
    simp [launched]
  simp only [RunResult.queueJobs, runDispatcher, hl limiter1 repos1 hlim1,
    hl limiter2 repos2 hlim2, jobsOf_launchAll, hcount, generateSyncJobs_congr neverDone hil hrm]
  exact List.Perm.refl _

/-- C14 amended, at a run in which the other repository fails to load and a
run in which it loads an empty index. -/
theorem failure_isolation_witness :
    ∃ q1 q2,
      (runDispatcher loadUnlessS (digestOk digestAC) (fun _ => neverDone) limiterOk
        [repoS, repoR]).delivered = some q1 ∧
      (runDispatcher loadEmptyForS (digestOk digestAC) (fun _ => neverDone) limiterOk
        [repoR, repoS]).delivered = some q2 ∧
      (jobsOf repoR q1).Perm (jobsOf repoR q2) :=
  failure_isolation loadUnlessS loadEmptyForS (digestOk digestAC) (digestOk digestAC)
    limiterOk limiterOk [repoS, repoR] [repoR, repoS] repoR rfl rfl (fun _ => rfl)
    (fun _ => rfl) (by decide) (by decide) (by decide)

/-! ## Order and logo flag of the Register jobs -/

theorem registerJob_map_version (D : DigestMap) (r : ChartRepository)
    (ts : List (Bool × ChartVersion)) :
    (ts.flatMap fun t => registerJob D r t.1 t.2).map (fun j => j.ChartVersion) =
      (ts.map Prod.snd).filter (changed D) := by
  induction ts with
  | nil => rfl
  | cons t rest ih =>
    simp only [List.flatMap_cons, List.map_append, ih, List.map_cons, List.filter_cons]
    by_cases h : t.2.Digest = D.get (chartKey t.2)
    · simp [registerJob, changed, h]
    · simp [registerJob, changed, h]

theorem filter_isRegister_generate {il : ChartRepository → Except GoError IndexFile}
    {rm : String → Except GoError DigestMap} (ctxDone : Nat → Bool) {r : ChartRepository}
    {idx : IndexFile} {D : DigestMap} (hil : il r = .ok idx)
    (hrm : rm r.ChartRepositoryID = .ok D) :
    (generateSyncJobs il rm ctxDone r).jobs.filter isRegister <+: registerJobs D r idx.Entries ∧
      (generateSyncJobs il rm neverDone r).jobs.filter isRegister =
        registerJobs D r idx.Entries := by
  have hreg : ∀ l : List Job, (∀ j ∈ l, j.Kind = .Register) → l.filter isRegister = l := by
    intro l hl
    rw [List.filter_eq_self]
    intro j hj
    simp [isRegister, hl j hj]
  have hun : ∀ l : List Job, (∀ j ∈ l, j.Kind = .Unregister) → l.filter isRegister = [] := by
    intro l hl
    rw [List.filter_eq_nil_iff]
    intro j hj
    simp [isRegister, hl j hj]
  constructor
  · obtain ⟨regs, uns, hjobs, hregs, huns⟩ := generateSyncJobs_parts ctxDone hil hrm
    rw [hjobs, List.filter_append, hreg regs (fun j hj => registerJobs_kind (hregs.subset hj)),
      hun uns (fun j hj => by
        obtain ⟨k, _, _, hk⟩ := huns j hj
        exact (unregisterJob_fields hk).1), List.append_nil]
    exact hregs
  · rw [generateSyncJobs_neverDone hil hrm, List.filter_append,
      hreg _ (fun j hj => registerJobs_kind hj),
      hun _ (fun j hj => by
        obtain ⟨k, _, _, hk⟩ := unregisterKeys_mem _ _ _ _ _ hj
        exact (unregisterJob_fields hk).1), List.append_nil]

/-- C15: in an uncancelled run whose loads succeed, the version entries of the
Register jobs, in the order in which the jobs are emitted, are exactly the
version entries of the index whose digest differs from the registered one, in
the order of the index: package after package as the loop visits them and,
within a package, in the order of its version list. -/
theorem register_jobs_follow_index_order (il : ChartRepository → Except GoError IndexFile)
    (rm : String → Except GoError DigestMap) (r : ChartRepository) (idx : IndexFile)
    (D : DigestMap) (hil : il r = .ok idx) (hrm : rm r.ChartRepositoryID = .ok D) :
    ((generateSyncJobs il rm neverDone r).jobs.filter isRegister).map (fun j => j.ChartVersion) =
      (idx.Entries.flatMap Prod.snd).filter (changed D) := by
  rw [(filter_isRegister_generate neverDone hil hrm).2, registerJobs, registerJob_map_version,
    taggedVersions_snd]

/-- C15, at the index with three new versions of one package. -/
theorem register_jobs_follow_index_order_witness :
    ((generateSyncJobs (loadOk indexThree) (digestOk []) neverDone repoR).jobs.filter
        isRegister).map (fun j => j.ChartVersion) =
      (indexThree.Entries.flatMap Prod.snd).filter (changed []) :=
  register_jobs_follow_index_order (loadOk indexThree) (digestOk []) repoR indexThree [] rfl rfl

theorem enumFrom_succ_jobs (D : DigestMap) (r : ChartRepository) (cvs : List ChartVersion)
    (i : Nat) :
    ((cvs.enumFrom (i + 1)).filter fun s => changed D s.2).map (slotJob r) =
      cvs.flatMap (registerJob D r false) := by
  induction cvs generalizing i with
  | nil => rfl
  | cons cv rest ih =>
    simp only [List.enumFrom_cons, List.filter_cons, List.flatMap_cons]
    by_cases h : cv.Digest = D.get (chartKey cv)
    · have hc : changed D cv = false := by simp [changed, h]
      simp [hc, h, registerJob, ih]
    · have hc : changed D cv = true := by simp [changed, h]
      simp [hc, h, registerJob, ih, slotJob]

theorem registerJobs_eq_slots (D : DigestMap) (r : ChartRepository)
    (es : List (String × List ChartVersion)) :
    registerJobs D r es = (changedSlots D es).map (slotJob r) := by
  induction es with
  | nil => rfl
  | cons g rest ih =>
    have hsplit : registerJobs D r (g :: rest) =
        (tagVersions g.2).flatMap (fun t => registerJob D r t.1 t.2) ++ registerJobs D r rest := by
      simp [registerJobs, taggedVersions, List.flatMap_append]
    rw [hsplit, ih]
    simp only [changedSlots, List.flatMap_cons, List.map_append]
    congr 1
    cases hg : g.2 with
    | nil => rfl
    | cons cv tl =>
      have hmap : (tl.map fun c => (false, c)).flatMap (fun t => registerJob D r t.1 t.2) =
          tl.flatMap (registerJob D r false) := by
        simp [List.flatMap, List.map_map, Function.comp_def]
      simp only [tagVersions, List.flatMap_cons, hmap, List.enum_cons, List.filter_cons]
      have hrest := enumFrom_succ_jobs D r tl 0
      simp only [Nat.zero_add] at hrest
      by_cases h : cv.Digest = D.get (chartKey cv)
      · have hc : changed D cv = false := by simp [changed, h]
        simp [hc, h, registerJob, hrest]
      · have hc : changed D cv = true := by simp [changed, h]
        simp [hc, h, registerJob, hrest, slotJob]

theorem tagVersions_mem {cvs : List ChartVersion} {t : Bool × ChartVersion}
    (h : t ∈ tagVersions cvs) :
    (t.1 = true ∧ cvs.head? = some t.2) ∨ (t.1 = false ∧ t.2 ∈ cvs.tail) := by
  cases cvs with
  | nil => simp [tagVersions] at h
  | cons cv rest =>
    simp only [tagVersions, List.mem_cons, List.mem_map] at h
    rcases h with h | ⟨c, hc, hct⟩
    · left
      rw [h]
      exact ⟨rfl, rfl⟩
    · right
      rw [← hct]
      exact ⟨rfl, hc⟩

theorem head_not_in_other_tail {es : List (String × List ChartVersion)}
    (hnd : (es.flatMap Prod.snd).Nodup) {g g2 : String × List ChartVersion} (hg : g ∈ es)
    (hg2 : g2 ∈ es) {cv : ChartVersion} (hhead : g.2.head? = some cv) (htail : cv ∈ g2.2.tail) :
    False := by
  obtain ⟨hall, hpair⟩ := List.nodup_flatMap.1 hnd
  have hmem : cv ∈ g.2 := List.mem_of_mem_head? hhead
  have hmem2 : cv ∈ g2.2 := List.mem_of_mem_tail htail
  by_cases heq : g = g2
  · subst heq
    have hn := hall g hg
    cases hl : g.2 with
    | nil => rw [hl] at hhead; simp at hhead
    | cons c tl =>
      rw [hl] at hhead htail hn
      simp only [List.head?_cons, Option.some.injEq] at hhead
      subst hhead
      exact (List.nodup_cons.1 hn).1 htail
  · have hsym : Symmetric (Function.onFun List.Disjoint (Prod.snd :
        String × List ChartVersion → List ChartVersion)) := by
      intro a b hab
      exact List.Disjoint.symm hab
    have hdis := hpair.forall hsym hg hg2 heq
    exact hdis hmem hmem2

/-- C17: for every job the generator emits, whenever the context is found
done or not. The Register jobs, in order, are built from the first of the
index entries whose digest differs, each taken with its position in the
version list of its package, and GetLogo is true exactly at position 0; in an
uncancelled run they are built from all of them. Every Unregister job has
GetLogo = false and an empty digest. A job with GetLogo = true is a Register
job whose version entry is the first of a package and, when no version entry
occurs twice in the index, every Register job whose version entry is the
first of a package has GetLogo = true. -/
theorem logo_iff_first_version (il : ChartRepository → Except GoError IndexFile)
    (rm : String → Except GoError DigestMap) (ctxDone : Nat → Bool) (r : ChartRepository)
    (idx : IndexFile) (D : DigestMap) (hil : il r = .ok idx)
    (hrm : rm r.ChartRepositoryID = .ok D) :
    (generateSyncJobs il rm ctxDone r).jobs.filter isRegister <+:
        (changedSlots D idx.Entries).map (slotJob r) ∧
      (generateSyncJobs il rm neverDone r).jobs.filter isRegister =
        (changedSlots D idx.Entries).map (slotJob r) ∧
      (∀ j ∈ (generateSyncJobs il rm ctxDone r).jobs, j.Kind = .Unregister →
        j.GetLogo = false ∧ j.ChartVersion.Digest = "") ∧
      (∀ j ∈ (generateSyncJobs il rm ctxDone r).jobs, j.GetLogo = true →
        j.Kind = .Register ∧ ∃ g ∈ idx.Entries, g.2.head? = some j.ChartVersion) ∧
      (idx.versions.Nodup → ∀ j ∈ (generateSyncJobs il rm ctxDone r).jobs,
        j.Kind = .Register → (∃ g ∈ idx.Entries, g.2.head? = some j.ChartVersion) →
        j.GetLogo = true) := by
  have hf := filter_isRegister_generate ctxDone hil hrm
  rw [registerJobs_eq_slots] at hf
  obtain ⟨regs, uns, hjobs, hregs, huns⟩ := generateSyncJobs_parts ctxDone hil hrm
  have hsrc : ∀ j ∈ regs, ∃ g ∈ idx.Entries, ∃ t ∈ tagVersions g.2,
      j = ⟨.Register, r, t.2, t.1⟩ := by
    intro j hj
    obtain ⟨t, ht, hjt, _⟩ := registerJobs_mem (hregs.subset hj)
    obtain ⟨g, hg, htg⟩ := List.mem_flatMap.1 ht
    exact ⟨g, hg, t, htg, hjt⟩
  refine ⟨hf.1, hf.2, ?_, ?_, ?_⟩
  · intro j hj hkind
    rw [hjobs] at hj
    rcases List.mem_append.1 hj with h | h
    · rw [registerJobs_kind (hregs.subset h)] at hkind
      cases hkind
    · obtain ⟨k, _, _, hk⟩ := huns j h
      exact ⟨(unregisterJob_fields hk).2.2.1, (unregisterJob_fields hk).2.2.2⟩
  · intro j hj hlogo
    rw [hjobs] at hj
    rcases List.mem_append.1 hj with h | h
    · obtain ⟨g, hg, t, ht, hjt⟩ := hsrc j h
      subst hjt
      rcases tagVersions_mem ht with ⟨_, hhead⟩ | ⟨hfalse, _⟩
      · exact ⟨rfl, g, hg, hhead⟩
      · simp only at hlogo
        rw [hfalse] at hlogo
        cases hlogo
    · obtain ⟨k, _, _, hk⟩ := huns j h
      rw [(unregisterJob_fields hk).2.2.1] at hlogo
      cases hlogo
  · intro hnd j hj hkind ⟨g, hg, hhead⟩
    rw [hjobs] at hj
    rcases List.mem_append.1 hj with h | h
    · obtain ⟨g2, hg2, t, ht, hjt⟩ := hsrc j h
      subst hjt
      rcases tagVersions_mem ht with ⟨htrue, _⟩ | ⟨_, htail⟩
      · exact htrue
      · exact (head_not_in_other_tail hnd hg hg2 hhead htail).elim
    · obtain ⟨k, _, _, hk⟩ := huns j h
      rw [(unregisterJob_fields hk).1] at hkind
      cases hkind

/-- C17, at the index with three new versions of one package: only the job of
the first version asks for the logo. -/
theorem logo_iff_first_version_witness :
    (generateSyncJobs (loadOk indexThree) (digestOk []) neverDone repoR).jobs.filter isRegister <+:
        (changedSlots [] indexThree.Entries).map (slotJob repoR) ∧
      (generateSyncJobs (loadOk indexThree) (digestOk []) neverDone repoR).jobs.filter isRegister =
        (changedSlots [] indexThree.Entries).map (slotJob repoR) ∧
      (∀ j ∈ (generateSyncJobs (loadOk indexThree) (digestOk []) neverDone repoR).jobs,
        j.Kind = .Unregister → j.GetLogo = false ∧ j.ChartVersion.Digest = "") ∧
      (∀ j ∈ (generateSyncJobs (loadOk indexThree) (digestOk []) neverDone repoR).jobs,
        j.GetLogo = true →
        j.Kind = .Register ∧ ∃ g ∈ indexThree.Entries, g.2.head? = some j.ChartVersion) ∧
      (indexThree.versions.Nodup →
        ∀ j ∈ (generateSyncJobs (loadOk indexThree) (digestOk []) neverDone repoR).jobs,
        j.Kind = .Register → (∃ g ∈ indexThree.Entries, g.2.head? = some j.ChartVersion) →
        j.GetLogo = true) :=
  logo_iff_first_version (loadOk indexThree) (digestOk []) neverDone repoR indexThree [] rfl rfl

/-! ## Keys and their parts -/

theorem splitChars_not_mem {sep : Char} {l : List Char} (h : sep ∉ l) :
    splitChars sep l = [l] := by
  induction l with
  | nil => rfl
  | cons c cs ih =>
    simp only [List.mem_cons, not_or] at h
    have hc : ¬ c = sep := fun e => h.1 e.symm
    simp [splitChars, hc, ih h.2]

theorem splitChars_append {sep : Char} {a : List Char} (b : List Char) (h : sep ∉ a) :
    splitChars sep (a ++ sep :: b) = a :: splitChars sep b := by
  induction a with
  | nil => simp [splitChars]
  | cons c cs ih =>
    simp only [List.mem_cons, not_or] at h
    have hc : ¬ c = sep := fun e => h.1 e.symm
    simp [splitChars, hc, ih h.2]

theorem splitChars_first (l : List Char) :
    splitChars '@' l =
      textBeforeSep l :: (if '@' ∈ l then splitChars '@' (textAfterSep l) else []) := by
  induction l with
  | nil => rfl
  | cons c cs ih =>
    by_cases hc : c = '@'
    · subst hc
      simp [splitChars, textBeforeSep, textAfterSep]
    · have hne : ('@' : Char) ≠ c := fun e => hc e.symm
      have hmem : ('@' ∈ c :: cs) ↔ '@' ∈ cs := by simp [hne]
      have hb : textBeforeSep (c :: cs) = c :: textBeforeSep cs := by
        simp [textBeforeSep, hc]
      have ha : textAfterSep (c :: cs) = textAfterSep cs := by
        simp [textAfterSep, hc]
      have hstep : splitChars '@' (c :: cs) =
          (c :: textBeforeSep cs) ::
            (if '@' ∈ cs then splitChars '@' (textAfterSep cs) else []) := by
        rw [splitChars, if_neg hc, ih]
      rw [hb, ha, hstep]
      simp only [hmem]

/-- C16, as stated, fails: the key built from the chart name `a@b` and the
version `1` splits into three parts, and the Unregister job built from it
carries name `a` and version `b`. -/
theorem key_round_trip_counterexample :
    stringsSplit (chartKey ⟨"a@b", "1", "d"⟩) = ["a", "b", "1"] ∧
      unregisterJob repoR (chartKey ⟨"a@b", "1", "d"⟩) =
        some ⟨.Unregister, repoR, ⟨"a", "b", ""⟩, false⟩ ∧
      ¬ (∃ j, unregisterJob repoR (chartKey ⟨"a@b", "1", "d"⟩) = some j ∧
          j.ChartVersion.Name = "a@b" ∧ j.ChartVersion.Version = "1") := by
  refine ⟨by decide, by decide, ?_⟩
  rintro ⟨j, hj, hname, _⟩
  have e : unregisterJob repoR (chartKey ⟨"a@b", "1", "d"⟩) =
      some ⟨.Unregister, repoR, ⟨"a", "b", ""⟩, false⟩ := by decide
  rw [e] at hj
  cases hj
  revert hname
  decide

/-- C16, amended: for every chart name and version that do not contain the
separator, the key name@version splits on the separator into exactly the two
parts name and version, so the Unregister job built from that key carries
Metadata.Name = name and Metadata.Version = version, no digest and no logo
flag. -/
theorem key_round_trip (r : ChartRepository) (name version digest : String)
    (hn : '@' ∉ name.data) (hv : '@' ∉ version.data) :
    stringsSplit (chartKey ⟨name, version, digest⟩) = [name, version] ∧
      unregisterJob r (chartKey ⟨name, version, digest⟩) =
        some ⟨.Unregister, r, ⟨name, version, ""⟩, false⟩ := by
  have hs : stringsSplit (chartKey ⟨name, version, digest⟩) = [name, version] := by
    unfold stringsSplit
    rw [chartKey_data, splitChars_append _ hn, splitChars_not_mem hv]
    rfl
  exact ⟨hs, by simp [unregisterJob, hs]⟩

/-- C16 amended, at the chart C with version 1.0. -/
theorem key_round_trip_witness :
    stringsSplit (chartKey ⟨"C", "1.0", "z"⟩) = ["C", "1.0"] ∧
      unregisterJob repoR (chartKey ⟨"C", "1.0", "z"⟩) =
        some ⟨.Unregister, repoR, ⟨"C", "1.0", ""⟩, false⟩ :=
  key_round_trip repoR "C" "1.0" "z" (by decide) (by decide)

/-- C19: for a registered key `k` that is not in the available set, the
unregistration pass panics on `p[1]` at `k` if and only if `k` contains no
separator; when `k` contains one, the pass sends at `k` an Unregister job
whose name is the text before the first separator and whose version is the
text between the first separator and the second one, or the end of the key. -/
theorem unregister_panics_iff_no_separator (ctxDone : Nat → Bool) (avail : List String)
    (r : ChartRepository) (k d : String) (rest : DigestMap) (n : Nat) (hk : k ∉ avail) :
    (unregisterJob r k = none ↔ '@' ∉ k.data) ∧
      ((unregisterKeys ctxDone avail r ((k, d) :: rest) n).jobs = [] ∧
          (unregisterKeys ctxDone avail r ((k, d) :: rest) n).left = some .panicked ↔
        '@' ∉ k.data) ∧
      ('@' ∈ k.data →
        unregisterJob r k =
          some ⟨.Unregister, r,
            ⟨⟨textBeforeSep k.data⟩, ⟨textBeforeSep (textAfterSep k.data)⟩, ""⟩, false⟩ ∧
        (unregisterKeys ctxDone avail r ((k, d) :: rest) n).jobs.head? =
          some ⟨.Unregister, r,
            ⟨⟨textBeforeSep k.data⟩, ⟨textBeforeSep (textAfterSep k.data)⟩, ""⟩, false⟩) := by
  have hnone : '@' ∉ k.data → unregisterJob r k = none := by
    intro h
    simp [unregisterJob, stringsSplit, splitChars_not_mem h]
  have hsome : '@' ∈ k.data → unregisterJob r k =
      some ⟨.Unregister, r,
        ⟨⟨textBeforeSep k.data⟩, ⟨textBeforeSep (textAfterSep k.data)⟩, ""⟩, false⟩ := by
    intro h
    have h1 := splitChars_first k.data
    rw [if_pos h, splitChars_first (textAfterSep k.data)] at h1
    simp [unregisterJob, stringsSplit, h1]
  have hiff : unregisterJob r k = none ↔ '@' ∉ k.data := by
    constructor
    · intro h hmem
      rw [hsome hmem] at h
      cases h
    · exact hnone
  refine ⟨hiff, ?_, ?_⟩
  · constructor
    · rintro ⟨hjobs, _⟩ hmem
      have hj := hsome hmem
      unfold unregisterKeys at hjobs
      by_cases hc : ctxDone n = true
      · simp [hk, hj, hc] at hjobs
      · simp [hk, hj, hc] at hjobs
    · intro h
      have hj := hnone h
      unfold unregisterKeys
      simp [hk, hj]
  · intro hmem
    have hj := hsome hmem
    refine ⟨hj, ?_⟩
    unfold unregisterKeys
    by_cases hc : ctxDone n = true
    · simp [hk, hj, hc]
    · simp [hk, hj, hc]

/-- C19, at the keys `broken` and `C@1.0@old` with nothing available. -/
theorem unregister_panics_iff_no_separator_witness :
    (unregisterJob repoR "C@1.0@old" = none ↔ '@' ∉ ("C@1.0@old" : String).data) ∧
      ((unregisterKeys neverDone [] repoR [("C@1.0@old", "z"), ("broken", "d")] 0).jobs = [] ∧
          (unregisterKeys neverDone [] repoR [("C@1.0@old", "z"), ("broken", "d")] 0).left =
            some .panicked ↔
        '@' ∉ ("C@1.0@old" : String).data) ∧
      ('@' ∈ ("C@1.0@old" : String).data →
        unregisterJob repoR "C@1.0@old" =
          some ⟨.Unregister, repoR,
            ⟨⟨textBeforeSep ("C@1.0@old" : String).data⟩,
             ⟨textBeforeSep (textAfterSep ("C@1.0@old" : String).data)⟩, ""⟩, false⟩ ∧
        (unregisterKeys neverDone [] repoR [("C@1.0@old", "z"), ("broken", "d")] 0).jobs.head? =
          some ⟨.Unregister, repoR,
            ⟨⟨textBeforeSep ("C@1.0@old" : String).data⟩,
             ⟨textBeforeSep (textAfterSep ("C@1.0@old" : String).data)⟩, ""⟩, false⟩) :=
  unregister_panics_iff_no_separator neverDone [] repoR "C@1.0@old" "z" [("broken", "d")] 0
    (by decide)

/-! ## Entries with an empty digest -/

theorem lookup_none_of_not_mem {D : DigestMap} {k : String} (h : k ∉ D.keys) :
    D.lookup k = none := by
  cases hl : D.lookup k with
  | none => rfl
  | some d =>
    exfalso
    apply h
    have := lookup_mem hl
    exact List.mem_map.2 ⟨(k, d), this, rfl⟩

/-- C18, as stated, fails in its Unregister part: the entry A@1.0 has an empty
digest and its key is not registered, no Register job is emitted, and yet an
Unregister job with name A and version 1.0 is emitted, built from the
registered key `A@1.0@old`. -/
theorem empty_digest_counterexample :
    (⟨"A", "1.0", ""⟩ : ChartVersion) ∈ indexEmptyDigest.versions ∧
      chartKey ⟨"A", "1.0", ""⟩ ∉ DigestMap.keys [("A@1.0@old", "q")] ∧
      (generateSyncJobs (loadOk indexEmptyDigest) (digestOk [("A@1.0@old", "q")]) neverDone
          repoR).jobs = [⟨.Unregister, repoR, ⟨"A", "1.0", ""⟩, false⟩] ∧
      ∃ j ∈ (generateSyncJobs (loadOk indexEmptyDigest) (digestOk [("A@1.0@old", "q")]) neverDone
          repoR).jobs,
        j.Kind = .Unregister ∧ chartKey j.ChartVersion = chartKey ⟨"A", "1.0", ""⟩ := by
  decide

/-- C18, amended: for every version entry whose digest is the empty string and
whose key name@version is not registered, in particular for every such entry
of the index, the generator emits no Register job for it, without any further
condition; and when no registered key that is absent from the index contains
the separator more than once, it emits no Unregister job with its name and
version either. This holds whenever the context is found done or not. -/
theorem empty_digest_never_registered (il : ChartRepository → Except GoError IndexFile)
    (rm : String → Except GoError DigestMap) (ctxDone : Nat → Bool) (r : ChartRepository)
    (idx : IndexFile) (D : DigestMap) (hil : il r = .ok idx)
    (hrm : rm r.ChartRepositoryID = .ok D) (cv : ChartVersion)
    (hempty : cv.Digest = "") (habsent : chartKey cv ∉ D.keys) :
    (¬ ∃ j ∈ (generateSyncJobs il rm ctxDone r).jobs,
        j.Kind = .Register ∧ j.ChartVersion = cv) ∧
      ((∀ k ∈ D.keys, k ∉ idx.keys → k.data.count '@' ≤ 1) →
        ¬ ∃ j ∈ (generateSyncJobs il rm ctxDone r).jobs,
          j.Kind = .Unregister ∧ chartKey j.ChartVersion = chartKey cv) := by
  obtain ⟨regs, uns, hjobs, hregs, huns⟩ := generateSyncJobs_parts ctxDone hil hrm
  rw [hjobs]
  constructor
  · rintro ⟨j, hj, hkind, hver⟩
    rcases List.mem_append.1 hj with h | h
    · obtain ⟨t, _, hjt, hd⟩ := registerJobs_mem (hregs.subset h)
      have ht : t.2 = cv := by rw [← hver, hjt]
      rw [ht] at hd
      apply hd
      simp [DigestMap.get, lookup_none_of_not_mem habsent, hempty]
    · obtain ⟨k, _, _, hk⟩ := huns j h
      rw [(unregisterJob_fields hk).1] at hkind
      cases hkind
  · rintro hsep ⟨j, hj, hkind, hkey⟩
    rcases List.mem_append.1 hj with h | h
    · rw [registerJobs_kind (hregs.subset h)] at hkind
      cases hkind
    · obtain ⟨k, hk, hav, hu⟩ := huns j h
      have hle := hsep k hk hav
      have hge := unregisterJob_count hu
      have hone : oneSeparator k := by
        unfold oneSeparator
        omega
      obtain ⟨j2, hj2, hkey2⟩ := unregisterJob_oneSeparator r hone
      rw [hu] at hj2
      cases hj2
      apply habsent
      rw [← hkey, hkey2]
      exact hk

/-- C18 amended, at two catalogs for the index whose entry A@1.0 has an empty
digest. With the registered key `A@1.0@old`, which has two separators, no
Register job is emitted for the entry (the Register part needs no condition on
the separators). With the registered key C@1.0, neither a Register job nor an
Unregister job is emitted for it. -/
theorem empty_digest_never_registered_witness :
    (¬ ∃ j ∈ (generateSyncJobs (loadOk indexEmptyDigest) (digestOk [("A@1.0@old", "q")])
          neverDone repoR).jobs,
        j.Kind = .Register ∧ j.ChartVersion = ⟨"A", "1.0", ""⟩) ∧
      (¬ ∃ j ∈ (generateSyncJobs (loadOk indexEmptyDigest) (digestOk [("C@1.0", "z")]) neverDone
          repoR).jobs,
        j.Kind = .Register ∧ j.ChartVersion = ⟨"A", "1.0", ""⟩) ∧
      ¬ ∃ j ∈ (generateSyncJobs (loadOk indexEmptyDigest) (digestOk [("C@1.0", "z")]) neverDone
          repoR).jobs,
        j.Kind = .Unregister ∧ chartKey j.ChartVersion = chartKey ⟨"A", "1.0", ""⟩ :=
  ⟨(empty_digest_never_registered (loadOk indexEmptyDigest) (digestOk [("A@1.0@old", "q")])
      neverDone repoR indexEmptyDigest [("A@1.0@old", "q")] rfl rfl ⟨"A", "1.0", ""⟩ rfl
      (by decide)).1,
    (empty_digest_never_registered (loadOk indexEmptyDigest) (digestOk [("C@1.0", "z")])
      neverDone repoR indexEmptyDigest [("C@1.0", "z")] rfl rfl ⟨"A", "1.0", ""⟩ rfl
      (by decide)).1,
    (empty_digest_never_registered (loadOk indexEmptyDigest) (digestOk [("C@1.0", "z")])
      neverDone repoR indexEmptyDigest [("C@1.0", "z")] rfl rfl ⟨"A", "1.0", ""⟩ rfl
      (by decide)).2 (by decide)⟩

/-! ## A context that is done from the start -/

theorem registerEntries_done_at_start {ctxDone : Nat → Bool} (h0 : ctxDone 0 = true)
    (D : DigestMap) (r : ChartRepository) (es : List (String × List ChartVersion)) :
    (es.flatMap Prod.snd = [] ∧ registerEntries ctxDone D r es 0 = ⟨[], [], 0, none⟩) ∨
      (∃ cv, (es.flatMap Prod.snd).head? = some cv ∧
        registerEntries ctxDone D r es 0 =
          ⟨registerJob D r true cv, [chartKey cv], 1, some .cancelled⟩) := by
  induction es with
  | nil => exact Or.inl ⟨rfl, rfl⟩
  | cons g rest ih =>
    obtain ⟨name, cvs⟩ := g
    cases cvs with
    | nil =>
      rcases ih with ⟨h1, h2⟩ | ⟨cv, h1, h2⟩
      · refine Or.inl ⟨by simpa using h1, ?_⟩
        simp [registerEntries, registerVersions, h2]
      · refine Or.inr ⟨cv, by simpa using h1, ?_⟩
        simp [registerEntries, registerVersions, h2]
    | cons cv tl =>
      refine Or.inr ⟨cv, by simp, ?_⟩
      simp [registerEntries, registerVersions, h0, registerJob]

/-- C20: when the context is already done at the first check, and both loads
succeed, the generator emits at most one job. When the index has a version
entry, the first one visited is still processed: its Register job is sent if
its digest differs, and the generator returns at the check that follows. When
the index has no version entry, the first registered key visited is still
processed: its Unregister job is sent if the key splits. -/
theorem done_at_start_emits_at_most_one (il : ChartRepository → Except GoError IndexFile)
    (rm : String → Except GoError DigestMap) (ctxDone : Nat → Bool) (r : ChartRepository)
    (idx : IndexFile) (D : DigestMap) (hil : il r = .ok idx)
    (hrm : rm r.ChartRepositoryID = .ok D) (h0 : ctxDone 0 = true) :
    (generateSyncJobs il rm ctxDone r).jobs.length ≤ 1 ∧
      (∀ cv, idx.versions.head? = some cv →
        (generateSyncJobs il rm ctxDone r).jobs = registerJob D r true cv ∧
        (generateSyncJobs il rm ctxDone r).checks = 1 ∧
        (generateSyncJobs il rm ctxDone r).exit = .cancelled) ∧
      (idx.versions = [] → ∀ k d rest, D = (k, d) :: rest →
        (generateSyncJobs il rm ctxDone r).jobs = (unregisterJob r k).toList ∧
        (generateSyncJobs il rm ctxDone r).checks ≤ 1) := by
  rcases registerEntries_done_at_start h0 D r idx.Entries with ⟨h1, h2⟩ | ⟨cv, h1, h2⟩
  · have hjobs : ∀ k d rest, D = (k, d) :: rest →
        (generateSyncJobs il rm ctxDone r).jobs = (unregisterJob r k).toList ∧
        (generateSyncJobs il rm ctxDone r).checks ≤ 1 := by
      intro k d rest hD
      subst hD
      cases hu : unregisterJob r k with
      | none => simp [generateSyncJobs, hil, hrm, h2, unregisterKeys, hu]
      | some job => simp [generateSyncJobs, hil, hrm, h2, unregisterKeys, hu, h0]
    refine ⟨?_, ?_, fun _ => hjobs⟩
    · cases hD : D with
      | nil =>
        subst hD
        simp [generateSyncJobs, hil, hrm, h2, unregisterKeys]
      | cons kv rest =>
        obtain ⟨k, d⟩ := kv
        rw [(hjobs k d rest hD).1]
        cases unregisterJob r k <;> simp
    · intro cv hcv
      rw [IndexFile.versions, h1] at hcv
      simp at hcv
  · have hres : (generateSyncJobs il rm ctxDone r).jobs = registerJob D r true cv ∧
        (generateSyncJobs il rm ctxDone r).checks = 1 ∧
        (generateSyncJobs il rm ctxDone r).exit = .cancelled := by
      simp [generateSyncJobs, hil, hrm, h2]
    refine ⟨?_, ?_, ?_⟩
    · rw [hres.1]
      unfold registerJob
      split <;> simp
    · intro cv2 hcv2
      rw [IndexFile.versions, h1] at hcv2
      cases hcv2
      exact hres
    · intro hnil
      rw [IndexFile.versions] at hnil
      rw [hnil] at h1
      simp at h1

/-- C20, at the index with three new versions and a context done from the
start: only the Register job of the first version is sent. -/
theorem done_at_start_emits_at_most_one_witness :
    (generateSyncJobs (loadOk indexThree) (digestOk []) alwaysDone repoR).jobs.length ≤ 1 ∧
      (∀ cv, indexThree.versions.head? = some cv →
        (generateSyncJobs (loadOk indexThree) (digestOk []) alwaysDone repoR).jobs =
          registerJob [] repoR true cv ∧
        (generateSyncJobs (loadOk indexThree) (digestOk []) alwaysDone repoR).checks = 1 ∧
        (generateSyncJobs (loadOk indexThree) (digestOk []) alwaysDone repoR).exit = .cancelled) ∧
      (indexThree.versions = [] → ∀ k d rest, ([] : DigestMap) = (k, d) :: rest →
        (generateSyncJobs (loadOk indexThree) (digestOk []) alwaysDone repoR).jobs =
          (unregisterJob repoR k).toList ∧
        (generateSyncJobs (loadOk indexThree) (digestOk []) alwaysDone repoR).checks ≤ 1) :=
  done_at_start_emits_at_most_one (loadOk indexThree) (digestOk []) alwaysDone repoR indexThree
    [] rfl rfl rfl

/-! ## The variables of the generator -/

theorem registerVersionsVars_eq (ctxDone : Nat → Bool) (r : ChartRepository)
    (cvs : List ChartVersion) (i : Nat) (s : GenVars) :
    registerVersionsVars ctxDone r cvs i s =
      (⟨s.indexFile, s.registeredPackagesDigest,
          s.chartsAvailable ++
            (registerVersions ctxDone s.registeredPackagesDigest r cvs i s.checks).keys,
          s.sent ++ (registerVersions ctxDone s.registeredPackagesDigest r cvs i s.checks).jobs,
          (registerVersions ctxDone s.registeredPackagesDigest r cvs i s.checks).checks⟩,
        (registerVersions ctxDone s.registeredPackagesDigest r cvs i s.checks).left) := by
  induction cvs generalizing i s with
  | nil => simp [registerVersionsVars, registerVersions]
  | cons cv rest ih =>
    by_cases hd : cv.Digest = s.registeredPackagesDigest.get (chartKey cv)
    · by_cases hc : ctxDone s.checks = true
      · simp [registerVersionsVars, registerVersions, registerBody, hd, hc]
      · simp [registerVersionsVars, registerVersions, registerBody, hd, hc, ih]
    · by_cases hc : ctxDone s.checks = true
      · simp [registerVersionsVars, registerVersions, registerBody, hd, hc]
      · simp [registerVersionsVars, registerVersions, registerBody, hd, hc, ih]

theorem registerEntriesVars_eq (ctxDone : Nat → Bool) (r : ChartRepository)
    (es : List (String × List ChartVersion)) (s : GenVars) :
    registerEntriesVars ctxDone r es s =
      (⟨s.indexFile, s.registeredPackagesDigest,
          s.chartsAvailable ++
            (registerEntries ctxDone s.registeredPackagesDigest r es s.checks).keys,
          s.sent ++ (registerEntries ctxDone s.registeredPackagesDigest r es s.checks).jobs,
          (registerEntries ctxDone s.registeredPackagesDigest r es s.checks).checks⟩,
        (registerEntries ctxDone s.registeredPackagesDigest r es s.checks).left) := by
  induction es generalizing s with
  | nil => simp [registerEntriesVars, registerEntries]
  | cons g rest ih =>
    obtain ⟨name, cvs⟩ := g
    cases hl : (registerVersions ctxDone s.registeredPackagesDigest r cvs 0 s.checks).left with
    | some e => simp [registerEntriesVars, registerEntries, registerVersionsVars_eq, hl]
    | none => simp [registerEntriesVars, registerEntries, registerVersionsVars_eq, hl, ih]

theorem unregisterKeysVars_eq (ctxDone : Nat → Bool) (r : ChartRepository)
    (D : DigestMap) (s : GenVars) :
    unregisterKeysVars ctxDone r D s =
      (⟨s.indexFile, s.registeredPackagesDigest, s.chartsAvailable,
          s.sent ++ (unregisterKeys ctxDone s.chartsAvailable r D s.checks).jobs,
          (unregisterKeys ctxDone s.chartsAvailable r D s.checks).checks⟩,
        (unregisterKeys ctxDone s.chartsAvailable r D s.checks).left) := by
  induction D generalizing s with
  | nil => simp [unregisterKeysVars, unregisterKeys]
  | cons kv rest ih =>
    obtain ⟨key, d⟩ := kv
    by_cases ha : key ∈ s.chartsAvailable
    · by_cases hc : ctxDone s.checks = true
      · simp [unregisterKeysVars, unregisterKeys, ha, hc]
      · simp [unregisterKeysVars, unregisterKeys, ha, hc, ih]
    · cases hu : unregisterJob r key with
      | none => simp [unregisterKeysVars, unregisterKeys, ha, hu]
      | some job =>
        by_cases hc : ctxDone s.checks = true
        · simp [unregisterKeysVars, unregisterKeys, ha, hu, hc]
        · simp [unregisterKeysVars, unregisterKeys, ha, hu, hc, ih]

theorem syncPasses_eq {il : ChartRepository → Except GoError IndexFile}
    {rm : String → Except GoError DigestMap} (ctxDone : Nat → Bool) {r : ChartRepository}
    {idx : IndexFile} {D : DigestMap} (hil : il r = .ok idx)
    (hrm : rm r.ChartRepositoryID = .ok D) :
    (syncPasses ctxDone r idx D).1.indexFile = idx ∧
      (syncPasses ctxDone r idx D).1.registeredPackagesDigest = D ∧
      (syncPasses ctxDone r idx D).1.sent = (generateSyncJobs il rm ctxDone r).jobs ∧
      (syncPasses ctxDone r idx D).1.checks = (generateSyncJobs il rm ctxDone r).checks ∧
      (syncPasses ctxDone r idx D).2 = (generateSyncJobs il rm ctxDone r).exit := by
  cases hl : (registerEntries ctxDone D r idx.Entries 0).left with
  | some e =>
    simp [syncPasses, generateSyncJobs, hil, hrm, registerEntriesVars_eq, hl]
  | none =>
    cases hu : (unregisterKeys ctxDone (registerEntries ctxDone D r idx.Entries 0).keys r D
        (registerEntries ctxDone D r idx.Entries 0).checks).left with
    | some e =>
      simp [syncPasses, generateSyncJobs, hil, hrm, registerEntriesVars_eq, hl,
        unregisterKeysVars_eq, hu]
    | none =>
      simp [syncPasses, generateSyncJobs, hil, hrm, registerEntriesVars_eq, hl,
        unregisterKeysVars_eq, hu]

/-- C21: when both loads succeed, every job the generator emits for repository
r has Repo = r, and the ChartVersion of every Register job is a version entry
of the loaded index, with its name, version and digest. The two passes leave
the variables `indexFile` and `registeredPackagesDigest` as they were loaded,
while sending exactly the jobs of the generator. This holds whenever the
context is found done or not. -/
theorem jobs_carry_repo_and_index_entries (il : ChartRepository → Except GoError IndexFile)
    (rm : String → Except GoError DigestMap) (ctxDone : Nat → Bool) (r : ChartRepository)
    (idx : IndexFile) (D : DigestMap) (hil : il r = .ok idx)
    (hrm : rm r.ChartRepositoryID = .ok D) :
    (∀ j ∈ (generateSyncJobs il rm ctxDone r).jobs, j.Repo = r) ∧
      (∀ j ∈ (generateSyncJobs il rm ctxDone r).jobs, j.Kind = .Register →
        j.ChartVersion ∈ idx.versions) ∧
      (syncPasses ctxDone r idx D).1.indexFile = idx ∧
      (syncPasses ctxDone r idx D).1.registeredPackagesDigest = D ∧
      (syncPasses ctxDone r idx D).1.sent = (generateSyncJobs il rm ctxDone r).jobs ∧
      (syncPasses ctxDone r idx D).2 = (generateSyncJobs il rm ctxDone r).exit := by
  have hs := syncPasses_eq ctxDone hil hrm
  refine ⟨fun j hj => generateSyncJobs_repo il rm ctxDone r hj, ?_, hs.1, hs.2.1, hs.2.2.1,
    hs.2.2.2.2⟩
  intro j hj hkind
  obtain ⟨regs, uns, hjobs, hregs, huns⟩ := generateSyncJobs_parts ctxDone hil hrm
  rw [hjobs] at hj
  rcases List.mem_append.1 hj with h | h
  · obtain ⟨t, ht, hjt, _⟩ := registerJobs_mem (hregs.subset h)
    have hmem : t.2 ∈ (taggedVersions idx.Entries).map Prod.snd := List.mem_map_of_mem _ ht
    rw [taggedVersions_snd] at hmem
    rw [hjt]
    exact hmem
  · obtain ⟨k, _, _, hk⟩ := huns j h
    rw [(unregisterJob_fields hk).1] at hkind
    cases hkind

/-- C21, at the scenario with packages A and B. -/
theorem jobs_carry_repo_and_index_entries_witness :
    (∀ j ∈ (generateSyncJobs (loadOk indexAB) (digestOk digestAC) neverDone repoR).jobs,
        j.Repo = repoR) ∧
      (∀ j ∈ (generateSyncJobs (loadOk indexAB) (digestOk digestAC) neverDone repoR).jobs,
        j.Kind = .Register → j.ChartVersion ∈ indexAB.versions) ∧
      (syncPasses neverDone repoR indexAB digestAC).1.indexFile = indexAB ∧
      (syncPasses neverDone repoR indexAB digestAC).1.registeredPackagesDigest = digestAC ∧
      (syncPasses neverDone repoR indexAB digestAC).1.sent =
        (generateSyncJobs (loadOk indexAB) (digestOk digestAC) neverDone repoR).jobs ∧
      (syncPasses neverDone repoR indexAB digestAC).2 =
        (generateSyncJobs (loadOk indexAB) (digestOk digestAC) neverDone repoR).exit :=
  jobs_carry_repo_and_index_entries (loadOk indexAB) (digestOk digestAC) neverDone repoR
    indexAB digestAC rfl rfl

end ChartTracker

namespace OrgHandlers

/-! ## Availability check -/

theorem errorsIs_iff_wraps (err target : ErrorValue) :
    errorsIs err target = true ↔ Wraps err target := by
  induction err with
  | errorString addr s =>
    simp [errorsIs, Wraps, ErrorValue.chain, sameObject]
  | wrapError addr msg e ih =>
    simp only [errorsIs, Bool.or_eq_true, ih]
    simp [Wraps, ErrorValue.chain, sameObject]

/-- C22: for a response on which no status has been written yet. When the
manager returns no error, the status is 404 Not Found if and only if the
manager reports the value as available, an unavailable value gets the status
200, and nothing is written to the body. When the manager returns an error,
the status is 400 and the body is the error's message (and a newline) if the
error is the invalid input sentinel or wraps it, that is, if the sentinel
object is in its unwrap chain; otherwise, also for another error with the
sentinel's text, the status is 500 and the message empty. -/
theorem check_availability_status (orgManager : String → String → Bool × Option ErrorValue)
    (errInvalidInput : ErrorValue) (cacheControl : String) (w : ResponseWriter) (r : Request)
    (available : Bool) (err : Option ErrorValue) (hw : w.status = none)
    (hm : orgManager r.resourceKind r.v = (available, err)) :
    (err = none →
        ((CheckAvailability orgManager errInvalidInput cacheControl w r).statusCode =
            StatusNotFound ↔ available = true) ∧
        (available = false →
          (CheckAvailability orgManager errInvalidInput cacheControl w r).statusCode =
            StatusOK) ∧
        (CheckAvailability orgManager errInvalidInput cacheControl w r).body = w.body) ∧
      (∀ e, err = some e → Wraps e errInvalidInput →
        (CheckAvailability orgManager errInvalidInput cacheControl w r).statusCode =
          StatusBadRequest ∧
        (CheckAvailability orgManager errInvalidInput cacheControl w r).body =
          w.body ++ (e.Error ++ "\n")) ∧
      (∀ e, err = some e → ¬ Wraps e errInvalidInput →
        (CheckAvailability orgManager errInvalidInput cacheControl w r).statusCode =
          StatusInternalServerError ∧
        (CheckAvailability orgManager errInvalidInput cacheControl w r).body =
          w.body ++ ("" ++ "\n")) := by
  refine ⟨?_, ?_, ?_⟩
  · intro he
    subst he
    cases available <;>
      simp [CheckAvailability, hm, ResponseWriter.headerSet, ResponseWriter.WriteHeader,
        ResponseWriter.statusCode, hw, StatusNotFound, StatusOK]
  · intro e he hwraps
    subst he
    have his : errorsIs e errInvalidInput = true := (errorsIs_iff_wraps e errInvalidInput).2 hwraps
    simp [CheckAvailability, hm, his, httpError, ResponseWriter.headerSet,
      ResponseWriter.WriteHeader, ResponseWriter.Write, ResponseWriter.statusCode, hw]
  · intro e he hwraps
    subst he
    have his : errorsIs e errInvalidInput = false := by
      cases h : errorsIs e errInvalidInput with
      | false => rfl
      | true => exact absurd ((errorsIs_iff_wraps e errInvalidInput).1 h) hwraps
    simp [CheckAvailability, hm, his, httpError, ResponseWriter.headerSet,
      ResponseWriter.WriteHeader, ResponseWriter.Write, ResponseWriter.statusCode, hw]

/-- C22, at four requests to the sample manager. An error that wraps the
sentinel gets 400 and its message; another error object with the sentinel's
text gets 500 and an empty message; an available value gets 404 and an
unavailable one 200. -/
theorem check_availability_status_witness :
    ((CheckAvailability sampleManager errInvalid "max-age=0" newResponse
          ⟨"unknown", "value"⟩).statusCode = 400 ∧
        (CheckAvailability sampleManager errInvalid "max-age=0" newResponse
          ⟨"unknown", "value"⟩).body = "invalid input: resource kind\n") ∧
      ((CheckAvailability sampleManager errInvalid "max-age=0" newResponse
          ⟨"lookalike", "value"⟩).statusCode = 500 ∧
        (CheckAvailability sampleManager errInvalid "max-age=0" newResponse
          ⟨"lookalike", "value"⟩).body = "\n") ∧
      (CheckAvailability sampleManager errInvalid "max-age=0" newResponse
        ⟨"userAlias", "free"⟩).statusCode = 404 ∧
      (CheckAvailability sampleManager errInvalid "max-age=0" newResponse
        ⟨"userAlias", "taken"⟩).statusCode = 200 :=
  ⟨(check_availability_status sampleManager errInvalid "max-age=0" newResponse
      ⟨"unknown", "value"⟩ false
      (some (.wrapError 2 "invalid input: resource kind" errInvalid)) rfl rfl).2.1 _ rfl
      (by decide),
    (check_availability_status sampleManager errInvalid "max-age=0" newResponse
      ⟨"lookalike", "value"⟩ false (some (.errorString 3 "invalid input")) rfl rfl).2.2 _ rfl
      (by decide),
    ((check_availability_status sampleManager errInvalid "max-age=0" newResponse
      ⟨"userAlias", "free"⟩ true none rfl rfl).1 rfl).1.2 rfl,
    ((check_availability_status sampleManager errInvalid "max-age=0" newResponse
      ⟨"userAlias", "taken"⟩ false none rfl rfl).1 rfl).2.1 rfl⟩

end OrgHandlers
